import Mathlib

/-!
# Verification of the electrum-meowcoin block-header chain engine

A shallow embedding of `electrum/blockchain.py` (with network parameters from
`electrum/constants.py`), together with theorems settling the frozen claims
about the header codec, the compact-target arithmetic, the header verifier,
the retarget engines and chunk ingestion.

Conventions of the embedding:

* Python `bytes` values are modelled as `List Nat` (each entry one byte).
  Hex strings (outputs of `serialize_header`, `hash_encode`, inputs of `bfh`)
  are modelled at byte granularity: one list entry stands for two hex
  characters, `bfh` is the identity, and string slices `s[2*a:2*b]` become
  byte slices `[a:b)`.  Hex encoding is a bijection on byte strings, so
  nothing is lost by this identification.
* Python `int` header heights are modelled as `Int` (they can be negative,
  e.g. `get_hash(-1)`); timestamps, versions, bits and nonces as `Nat`.
* Exceptions are modelled with `Except BErr`; each raise site keeps (a prefix
  of) the source's message string.
* The external hash kernels (sha256d, x16r, x16rv2, kawpow/meowpow
  light-verify, scrypt) are pure functions out of scope of the engine; they
  are parameters of the embedding, collected in the `Kernels` structure.
-/

namespace Mewc

/-- Python slice `s[a:b]` on byte strings (`b ≥ a`). -/
def slice (s : List Nat) (a b : Nat) : List Nat :=
  (s.drop a).take (b - a)

/-- Big-endian value of a byte string: `int.from_bytes(s, 'big')`. -/
def beVal (s : List Nat) : Nat :=
  s.foldl (fun acc b => acc * 256 + b) 0

/-- Little-endian value of a byte string: `int.from_bytes(s, 'little')`
(the local `hex_to_int` of `deserialize_header`). -/
def leVal (s : List Nat) : Nat :=
  beVal s.reverse

/-- Big-endian byte string of `n`, `k` bytes long (`int.to_bytes(k, 'big')`,
assuming `n < 256^k`; for larger `n` Python raises `OverflowError`, the model
truncates to the low `k` bytes). -/
def beBytes : Nat → Nat → List Nat
  | 0, _ => []
  | k + 1, n => beBytes k (n / 256) ++ [n % 256]

/-- `int_to_hex i length` from `electrum/bitcoin.py`.
Modelled from the spec: the helper module `bitcoin.py` is not part of the
given sources; per the spec the codec stores "little-endian integers", so
this is the `length`-byte little-endian encoding of `i` (for in-range `i`,
which is all the codec ever passes; Python emits a corrupt over-long string
for out-of-range `i`, which the model does not reproduce). -/
def int_to_hex (i : Nat) : Nat → List Nat
  | 0 => []
  | k + 1 => i % 256 :: int_to_hex (i / 256) k

/-- `rev_hex` from `electrum/bitcoin.py`.
Modelled from the spec: byte-order reversal of a hex string ("internal hash
fields big-endian text but stored byte-reversed"). -/
def rev_hex (s : List Nat) : List Nat :=
  s.reverse

/-- `hash_encode` from `electrum/bitcoin.py`.
Modelled from the spec: hex encoding of the byte-reversed input; at byte
granularity this is again reversal. -/
def hash_encode (s : List Nat) : List Nat :=
  s.reverse

/-- Errors raised by the engine (each constructor keeps the Python exception
class; the string is a prefix of the source's message). -/
inductive BErr where
  | invalidHeader (msg : String)
  | missingHeader (height : Int)
  | notEnoughHeaders
  | assertionError (msg : String)
  | genericError (msg : String)
  deriving Repr, DecidableEq

/-- Read-only network parameters (`constants.net`), as consumed by
`blockchain.py`.  `AuxPowActivationHeight` is referenced by the source but
its defining constant is not among the given sources, so it stays an
abstract field.  Hashes in checkpoint data are byte strings, targets `Nat`. -/
structure Net where
  TESTNET : Bool
  GENESIS : List Nat
  CHECKPOINTS : List (List Nat × Nat)
  DGW_CHECKPOINTS : List ((List Nat × Nat) × (List Nat × Nat))
  DGW_CHECKPOINTS_SPACING : Nat
  DGW_CHECKPOINTS_START : Nat
  AuxPowActivationHeight : Int
  KawpowActivationHeight : Int
  KawpowActivationTS : Nat
  MeowpowActivationTS : Nat
  X16Rv2ActivationTS : Nat
  nDGWActivationBlock : Int
  deriving Repr, DecidableEq

/-- `AbstractNet.max_legacy_checkpoint`: `max(0, len(CHECKPOINTS)*2016 - 1)`. -/
def Net.max_legacy_checkpoint (net : Net) : Int :=
  max 0 (net.CHECKPOINTS.length * 2016 - 1 : Int)

/-- `AbstractNet.max_checkpoint`:
`max(0, START + len(DGW_CHECKPOINTS)*SPACING - 1)`. -/
def Net.max_checkpoint (net : Net) : Int :=
  max 0 ((net.DGW_CHECKPOINTS_START : Int) +
    net.DGW_CHECKPOINTS.length * net.DGW_CHECKPOINTS_SPACING - 1)

/-- A header dict.  The five numeric core fields and the two hash fields are
always present (every producer in the source sets them); the optional fields
model presence/absence of the corresponding dict keys (`'nonce'`,
`'nheight'`, `'nonce64'`, `'mix_hash'`). -/
structure Header where
  version : Nat
  prev_block_hash : List Nat
  merkle_root : List Nat
  timestamp : Nat
  bits : Nat
  nonce : Option Nat
  nheight : Option Nat
  nonce64 : Option Nat
  mix_hash : Option (List Nat)
  block_height : Int
  deriving Repr, DecidableEq

/-- `blockchain.HEADER_SIZE` (bytes). -/
def HEADER_SIZE : Nat := 120

/-- `blockchain.LEGACY_HEADER_SIZE` (bytes). -/
def LEGACY_HEADER_SIZE : Nat := 80

/-- `blockchain.MAX_TARGET`. -/
def MAX_TARGET : Nat :=
  0x00000fffffffffffffffffffffffffffffffffffffffffffffffffffffffffff

/-- `blockchain.KAWPOW_LIMIT`. -/
def KAWPOW_LIMIT : Nat :=
  0x0000000000ffffffffffffffffffffffffffffffffffffffffffffffffffffff

/-- `blockchain.MEOWPOW_LIMIT`. -/
def MEOWPOW_LIMIT : Nat :=
  0x0000000000ffffffffffffffffffffffffffffffffffffffffffffffffffffff

/-- `blockchain.SCRYPT_LIMIT`. -/
def SCRYPT_LIMIT : Nat :=
  0x00000fffffffffffffffffffffffffffffffffffffffffffffffffffffffffff

/-- `blockchain.DGW_PASTBLOCKS`. -/
def DGW_PASTBLOCKS : Nat := 180

/-- `blockchain.LWMA_AVERAGING_WINDOW` (the `N` parameter). -/
def LWMA_AVERAGING_WINDOW : Nat := 90

/-- `blockchain.POW_TARGET_SPACING` (seconds). -/
def POW_TARGET_SPACING : Nat := 60

/-- `serialize_header(header_dict)` (blockchain.py:103).  Output format is
selected solely by presence of the `'nheight'` key.  The 80-byte branch keeps
the source's dead `ljust` padding branch (guarded by `not is_auxpow`, which
is always false there). -/
def serialize_header (h : Header) : List Nat :=
  let is_meowpow_header := h.nheight.isSome
  let is_auxpow := ¬ is_meowpow_header
  if is_meowpow_header then
    let nonce_value := h.nonce64.getD (h.nonce.getD 0)
    int_to_hex h.version 4
      ++ rev_hex h.prev_block_hash
      ++ rev_hex h.merkle_root
      ++ int_to_hex h.timestamp 4
      ++ int_to_hex h.bits 4
      ++ int_to_hex (h.nheight.getD 0) 4
      ++ int_to_hex nonce_value 8
      ++ rev_hex (h.mix_hash.getD [])
  else
    let s := int_to_hex h.version 4
      ++ rev_hex h.prev_block_hash
      ++ rev_hex h.merkle_root
      ++ int_to_hex h.timestamp 4
      ++ int_to_hex h.bits 4
      ++ int_to_hex (h.nonce.getD 0) 4
    if ¬ is_auxpow then s ++ List.replicate (HEADER_SIZE - s.length) 0 else s

/-- `deserialize_header(s, height)` (blockchain.py:136).  The two 80-byte
branches of the source differ only in debug printing and assign the same
fields, so they are merged here. -/
def deserialize_header (net : Net) (s : List Nat) (height : Int) :
    Except BErr Header :=
  if s = [] then .error (.invalidHeader "Invalid header: empty")
  else if ¬ (s.length = LEGACY_HEADER_SIZE ∨ s.length = HEADER_SIZE) then
    .error (.invalidHeader "Invalid header length")
  else
    let version := leVal (slice s 0 4)
    let prev := hash_encode (slice s 4 36)
    let merkle := hash_encode (slice s 36 68)
    let timestamp := beVal (hash_encode (slice s 68 72))
    let bits := beVal (hash_encode (slice s 72 76))
    if s.length = HEADER_SIZE then
      -- 120 bytes: real MeowPow header, or a padded AuxPOW header
      let is_auxpow_padded :=
        height ≥ net.AuxPowActivationHeight ∧ version &&& (1 <<< 8) ≠ 0 ∧
          slice s LEGACY_HEADER_SIZE HEADER_SIZE =
            List.replicate (HEADER_SIZE - LEGACY_HEADER_SIZE) 0
      if ¬ is_auxpow_padded then
        .ok { version := version, prev_block_hash := prev,
              merkle_root := merkle, timestamp := timestamp, bits := bits,
              nheight := some (beVal (hash_encode (slice s 76 80))),
              nonce := some (beVal (hash_encode (slice s 80 88))),
              nonce64 := none,
              mix_hash := some (hash_encode (slice s 88 120)),
              block_height := height }
      else
        .ok { version := version, prev_block_hash := prev,
              merkle_root := merkle, timestamp := timestamp, bits := bits,
              nonce := some (beVal (hash_encode (slice s 76 80))),
              nheight := none, nonce64 := none, mix_hash := none,
              block_height := height }
    else
      -- 80 bytes: AuxPOW or legacy; both set the same fields
      .ok { version := version, prev_block_hash := prev,
            merkle_root := merkle, timestamp := timestamp, bits := bits,
            nonce := some (beVal (hash_encode (slice s 76 80))),
            nheight := none, nonce64 := none, mix_hash := none,
            block_height := height }

/-- `Blockchain.bits_to_target(bits)` (blockchain.py:1212,
`arith_uint256::SetCompact`).  The argument is `Int` because Python accepts
(and rejects) negative ints. -/
def bits_to_target (bits : Int) : Except BErr Nat :=
  if ¬ (0 ≤ bits ∧ bits < (1 <<< 32 : Int)) then
    .error (.invalidHeader "bits should be uint32")
  else
    let b := bits.toNat
    let bitsN := (b >>> 24) &&& 0xff
    let bitsBase := b &&& 0x7fffff
    let target :=
      if bitsN ≤ 3 then bitsBase >>> (8 * (3 - bitsN))
      else bitsBase <<< (8 * (bitsN - 3))
    if target ≠ 0 ∧ b &&& 0x800000 ≠ 0 then
      .error (.invalidHeader "target cannot be negative")
    else if target ≠ 0 ∧
        (bitsN > 34 ∨ (bitsN > 33 ∧ bitsBase > 0xff) ∨
          (bitsN > 32 ∧ bitsBase > 0xffff)) then
      .error (.invalidHeader "target has overflown")
    else
      .ok target

/-- The `while bitsN > 0 and c[0] == 0` loop of `target_to_bits`
(blockchain.py:1239): strip leading zero bytes, re-padding on the right
whenever the list gets shorter than 3 bytes.  The first component of the
fuel is `bitsN` (which the loop decrements), so recursion is structural. -/
def stripLoop : Nat → List Nat → Nat × List Nat
  | 0, c => (0, c)
  | n + 1, c =>
    if c.headD 1 = 0 then
      let c1 := c.tail
      let c2 := if c1.length < 3 then c1 ++ [0] else c1
      stripLoop n c2
    else (n + 1, c)

/-- `Blockchain.target_to_bits(target)` (blockchain.py:1233,
`arith_uint256::GetCompact`).  `target.to_bytes(32, 'big')` requires
`target < 2^256` in Python; the model truncates larger inputs. -/
def target_to_bits (target : Nat) : Nat :=
  let c := beBytes 32 target
  let sn := stripLoop 32 c
  let bitsN := sn.1
  let bitsBase := beVal (sn.2.take 3)
  if bitsBase ≥ 0x800000 then
    ((bitsN + 1) <<< 24) ||| (bitsBase >>> 8)
  else
    (bitsN <<< 24) ||| bitsBase

/-- The external hash kernels, pure functions out of the engine's scope:
`sha256d`, `x16r_hash.getPoWHash`, `x16rv2_hash.getPoWHash`,
`kawpow.light_verify`, `meowpow.light_verify`, and `hashlib.scrypt` at
N=1024, r=1, p=1, dklen=32 with password = salt = header.  `scrypt` returns
`none` when the call raises; `scryptAvailable` is the start-up probe's
`_SCRYPT_AVAILABLE` flag. -/
structure Kernels where
  sha256d : List Nat → List Nat
  x16r : List Nat → List Nat
  x16rv2 : List Nat → List Nat
  kawpow_light_verify : List Nat → List Nat → Nat → List Nat
  meowpow_light_verify : List Nat → List Nat → Nat → List Nat
  scryptAvailable : Bool
  scrypt : List Nat → Option (List Nat)

/-- Result of `hash_raw_header_auxpow`, tagged by which kernel actually
produced the digest: the intended Scrypt kernel, or the SHA-256d fallback
the source substitutes when Scrypt is unavailable or fails. -/
inductive AuxPowHash where
  | scryptHash (digest : List Nat)
  | sha256dFallback (digest : List Nat)
  deriving Repr, DecidableEq

/-- The digest carried by an `AuxPowHash`, whichever kernel made it. -/
def AuxPowHash.val : AuxPowHash → List Nat
  | .scryptHash d => d
  | .sha256dFallback d => d

/-- `hash_raw_header_auxpow(header)` (blockchain.py:261).  The source never
raises: when `_SCRYPT_AVAILABLE` is false, or the scrypt call raises, or it
returns a digest of the wrong length, the function logs and returns
`hash_encode(sha256d(header_bytes))` instead.  (The initial `bfh` conversion
try/except cannot fail at byte granularity and is omitted.) -/
def hash_raw_header_auxpow (K : Kernels) (header : List Nat) : AuxPowHash :=
  let header_bytes := header.take 80
  if ¬ K.scryptAvailable then
    .sha256dFallback (hash_encode (K.sha256d header_bytes))
  else
    match K.scrypt header_bytes with
    | some scrypt_hash =>
      if scrypt_hash.length ≠ 32 then
        .sha256dFallback (hash_encode (K.sha256d header_bytes))
      else
        .scryptHash (hash_encode scrypt_hash)
    | none => .sha256dFallback (hash_encode (K.sha256d header_bytes))

/-- `hash_raw_header_v1` (blockchain.py:219). -/
def hash_raw_header_v1 (K : Kernels) (header : List Nat) : List Nat :=
  hash_encode (K.x16r (header.take 80))

/-- `hash_raw_header_v2` (blockchain.py:224). -/
def hash_raw_header_v2 (K : Kernels) (header : List Nat) : List Nat :=
  hash_encode (K.x16rv2 (header.take 80))

/-- `revb(data)` (blockchain.py:229). -/
def revb (data : List Nat) : List Nat :=
  data.reverse

/-- `kawpow_hash(hdr_bin)` (blockchain.py:235): `struct.unpack("<Q", ...)`
is the little-endian value of bytes 80..88. -/
def kawpow_hash (K : Kernels) (hdr_bin : List Nat) : List Nat :=
  let header_hash := revb (K.sha256d (hdr_bin.take 80))
  let mix_hash := revb (slice hdr_bin 88 120)
  let nNonce64 := leVal (slice hdr_bin 80 88)
  revb (K.kawpow_light_verify header_hash mix_hash nNonce64)

/-- `hash_raw_header_kawpow` (blockchain.py:243). -/
def hash_raw_header_kawpow (K : Kernels) (header : List Nat) : List Nat :=
  hash_encode (kawpow_hash K header)

/-- `meowpow_hash(hdr_bin)` (blockchain.py:248). -/
def meowpow_hash (K : Kernels) (hdr_bin : List Nat) : List Nat :=
  let header_hash := revb (K.sha256d (hdr_bin.take 80))
  let mix_hash := revb (slice hdr_bin 88 120)
  let nNonce64 := leVal (slice hdr_bin 80 88)
  revb (K.meowpow_light_verify header_hash mix_hash nNonce64)

/-- `hash_raw_header_meowpow` (blockchain.py:256). -/
def hash_raw_header_meowpow (K : Kernels) (header : List Nat) : List Nat :=
  hash_encode (meowpow_hash K header)

/-- `hash_header(header)` (blockchain.py:194).  The `header is None` and
`prev_block_hash is None` normalisations do not arise for the structure
(fields always present).  `serialize_header(header)[:80*2]` is the first 80
bytes at byte granularity. -/
def hash_header (net : Net) (K : Kernels) (h : Header) : List Nat :=
  let height := h.block_height
  let version_int := h.version
  let is_auxpow :=
    version_int &&& (1 <<< 8) ≠ 0 ∧ height ≥ net.AuxPowActivationHeight
  if is_auxpow then
    (hash_raw_header_auxpow K (serialize_header h)).val
  else if h.timestamp ≥ net.KawpowActivationTS ∧
      h.timestamp < net.MeowpowActivationTS then
    hash_raw_header_kawpow K (serialize_header h)
  else if h.timestamp ≥ net.MeowpowActivationTS then
    hash_raw_header_meowpow K (serialize_header h)
  else if h.timestamp ≥ net.X16Rv2ActivationTS then
    hash_raw_header_v2 K ((serialize_header h).take 80)
  else
    hash_raw_header_v1 K ((serialize_header h).take 80)

/-- Python truthiness of the optional `expected_header_hash` argument
(`None` and the empty string are falsy). -/
def truthy : Option (List Nat) → Bool
  | none => false
  | some e => e ≠ []

/-- `Blockchain.verify_header(header, prev_hash, target,
expected_header_hash, skip_bits_check)` (blockchain.py:515). -/
def verify_header (net : Net) (K : Kernels) (header : Header)
    (prev_hash : List Nat) (target : Nat)
    (expected_header_hash : Option (List Nat) := none)
    (skip_bits_check : Bool := false) : Except BErr Unit :=
  if prev_hash ≠ header.prev_block_hash then
    .error (.invalidHeader "prev hash mismatch")
  else if net.TESTNET then .ok ()
  else
    let height := header.block_height
    let version_int := header.version
    let is_auxpow :=
      version_int &&& (1 <<< 8) ≠ 0 ∧ height ≥ net.AuxPowActivationHeight
    if is_auxpow then
      if truthy expected_header_hash then
        let _hash := hash_header net K header
        if expected_header_hash.getD [] ≠ _hash then
          .error (.invalidHeader "hash mismatches with expected")
        else .ok ()
      else .ok ()
    else
      let should_validate_pow :=
        if height > net.max_checkpoint then height % 10 = 0 else True
      if ¬ should_validate_pow then .ok ()
      else do
        if ¬ skip_bits_check then
          let bits := target_to_bits target
          if bits ≠ header.bits then
            throw (.invalidHeader "bits mismatch")
        let _hash := hash_header net K header
        if truthy expected_header_hash ∧
            expected_header_hash.getD [] ≠ _hash then
          throw (.invalidHeader "hash mismatches with expected")
        let block_hash_as_num := beVal _hash
        if block_hash_as_num > target then
          throw (.invalidHeader "insufficient proof of work")
        return ()

/-- `get_block_algo`'s result (blockchain.py:86): `'scrypt'` or `'meowpow'`. -/
inductive Algo where
  | scrypt
  | meowpow
  deriving Repr, DecidableEq

/-- `get_block_algo(header, height)` (blockchain.py:86). -/
def get_block_algo (net : Net) (h : Header) (height : Int) : Algo :=
  if height ≥ net.AuxPowActivationHeight then
    if h.version &&& (1 <<< 8) ≠ 0 then .scrypt else .meowpow
  else .meowpow

/-- `Blockchain.is_dgw_height_checkpoint(height)` (blockchain.py:926).
`%` is Python's floored modulus, i.e. `Int.emod` (`SPACING` is positive for
both configured networks; Python would raise `ZeroDivisionError` at 0). -/
def is_dgw_height_checkpoint (net : Net) (height : Int) : Option Nat :=
  if height < net.DGW_CHECKPOINTS_START then none
  else if height > net.max_checkpoint then none
  else
    let height_mod := height % (net.DGW_CHECKPOINTS_SPACING : Int)
    if height_mod = 0 then some 0
    else if height_mod = (net.DGW_CHECKPOINTS_SPACING : Int) - 1 then some 1
    else none

/-- The state of the genesis-rooted main chain (`Blockchain` with
`forkpoint = 0` and `parent = None`): the backing header file's bytes and
the cached `_size` field (refreshed by `update_size` after each write).
Fork chains (nonzero forkpoint, parent delegation) are outside this model;
every branch of the source that is conditional on `parent`/`forkpoint` is
mapped below under `parent is None`, `forkpoint == 0`. -/
structure MainChain where
  file : List Nat
  size : Nat
  deriving Repr, DecidableEq

/-- `Blockchain.height()` (blockchain.py:502): `forkpoint + size - 1`. -/
def chain_height (c : MainChain) : Int :=
  0 + (c.size : Int) - 1

/-- `Blockchain.update_size` (blockchain.py:510): `os.path.getsize(p) //
HEADER_SIZE`. -/
def update_size (c : MainChain) : MainChain :=
  { c with size := c.file.length / HEADER_SIZE }

/-- `Blockchain.read_header(height)` (blockchain.py:876), for the main chain
(no parent delegation).  Returns `none` for negative or out-of-range heights
and for the all-zero sentinel record; unpads stored AuxPOW records. -/
def read_header (net : Net) (c : MainChain) (height : Int) :
    Except BErr (Option Header) :=
  if height < 0 then .ok none
  else if height > chain_height c then .ok none
  else
    let delta := height.toNat
    let h := slice c.file (delta * HEADER_SIZE) (delta * HEADER_SIZE + HEADER_SIZE)
    if h.length < HEADER_SIZE then
      .error (.genericError "Expected to read a full header")
    else if h = List.replicate HEADER_SIZE 0 then .ok none
    else
      let h2 :=
        if height ≥ net.AuxPowActivationHeight ∧ h.length = HEADER_SIZE ∧
            leVal (slice h 0 4) &&& (1 <<< 8) ≠ 0 ∧
            slice h LEGACY_HEADER_SIZE HEADER_SIZE =
              List.replicate (HEADER_SIZE - LEGACY_HEADER_SIZE) 0 then
          h.take LEGACY_HEADER_SIZE
        else h
      do return some (← deserialize_header net h2 height)

/-- `Blockchain.get_hash(height)` (blockchain.py:943), for the main chain.
List indexing models Python's `IndexError` as a generic error. -/
def get_hash (net : Net) (K : Kernels) (c : MainChain) (height : Int) :
    Except BErr (List Nat) :=
  let is_height_checkpoint :=
    height ≤ net.max_legacy_checkpoint ∧ (height + 1) % 2016 = 0
  let dgw_height_checkpoint := is_dgw_height_checkpoint net height
  if height = -1 then .ok (List.replicate 32 0)
  else if height = 0 then .ok net.GENESIS
  else if is_height_checkpoint then
    match net.CHECKPOINTS.get? (height / 2016).toNat with
    | some ht => .ok ht.1
    | none => .error (.genericError "IndexError")
  else if h1 : dgw_height_checkpoint.isSome then
    let index := height / (net.DGW_CHECKPOINTS_SPACING : Int) -
      (net.DGW_CHECKPOINTS_START : Int) / (net.DGW_CHECKPOINTS_SPACING : Int)
    match net.DGW_CHECKPOINTS.get? index.toNat with
    | some pair =>
      .ok (if dgw_height_checkpoint.get h1 = 0 then pair.1.1 else pair.2.1)
    | none => .error (.genericError "IndexError")
  else do
    match ← read_header net c height with
    | none => .error (.missingHeader height)
    | some header => return hash_header net K header

/-- `convbignum(bits)` (blockchain.py:1007).  For `bits < 0x03000000` the
Python code computes `pow(2, negative)` and returns a float; that regime is
outside every call site's domain and is mapped to exponent 0 by `Nat`
subtraction. -/
def convbignum (bits : Nat) : Nat :=
  let MM := 256 * 256 * 256
  let a := bits % MM
  let a := if a < 0x8000 then a * 256 else a
  a * 2 ^ (8 * (bits / MM - 3))

/-- The headers dict passed through `verify_chunk`/`can_connect` into the
retarget engines (`chain` parameter).  Insertion conses, so the most recent
binding for a height shadows older ones, like Python dict assignment. -/
abbrev HeadersDict : Type := List (Int × Header)

/-- `chain.get(h)` on the headers dict. -/
def hget (d : HeadersDict) (h : Int) : Option Header :=
  match List.find? (fun p => p.1 = h) d with
  | some p => some p.2
  | none => none

/-- `get_block_reading_from_height` local to `get_target_dgwv3`
(blockchain.py:1017): the chain dict first (any failure swallowed), then
`read_header` (whose exceptions propagate), then `NotEnoughHeaders` if still
missing. -/
def dgw_get_block_reading (net : Net) (c : MainChain) (chain : HeadersDict)
    (height : Int) : Except BErr Header := do
  match hget chain height with
  | some last => return last
  | none =>
    match ← read_header net c height with
    | some last => return last
    | none => .error .notEnoughHeaders

/-- The `for _ in range(PastBlocksMax)` loop of `get_target_dgwv3`
(blockchain.py:1039), with fuel `PastBlocksMax`.  State:
(BlockReading, nActualTimespan, LastBlockTime, CountBlocks,
PastDifficultyAverage, PastDifficultyAveragePrev); returns the final
(CountBlocks, PastDifficultyAverage, nActualTimespan). -/
def dgwLoop (net : Net) (c : MainChain) (chain : HeadersDict) (height : Int) :
    Nat → Header → Int → Int → Nat → Nat → Nat →
    Except BErr (Nat × Nat × Int)
  | 0, _, nActualTimespan, _, CountBlocks, PastDifficultyAverage, _ =>
    .ok (CountBlocks, PastDifficultyAverage, nActualTimespan)
  | fuel + 1, BlockReading, nActualTimespan, LastBlockTime, CountBlocks,
      PastDifficultyAverage, PastDifficultyAveragePrev => do
    let CountBlocks := CountBlocks + 1
    let PastDifficultyAverage :=
      if CountBlocks ≤ DGW_PASTBLOCKS then
        if CountBlocks = 1 then convbignum BlockReading.bits
        else
          ((PastDifficultyAveragePrev * CountBlocks) +
            convbignum BlockReading.bits) / (CountBlocks + 1)
      else PastDifficultyAverage
    let PastDifficultyAveragePrev := PastDifficultyAverage
    let nActualTimespan :=
      if LastBlockTime > 0 then
        nActualTimespan + (LastBlockTime - (BlockReading.timestamp : Int))
      else nActualTimespan
    let LastBlockTime := (BlockReading.timestamp : Int)
    let BlockReading ←
      dgw_get_block_reading net c chain ((height - 1) - CountBlocks)
    dgwLoop net c chain height fuel BlockReading nActualTimespan
      LastBlockTime CountBlocks PastDifficultyAverage PastDifficultyAveragePrev

/-- `Blockchain.get_target_dgwv3(height, chain)` (blockchain.py:1015). -/
def get_target_dgwv3 (net : Net) (c : MainChain) (height : Int)
    (chain : HeadersDict) : Except BErr Nat := do
  let BlockReading ← dgw_get_block_reading net c chain (height - 1)
  let (CountBlocks, PastDifficultyAverage, nActualTimespan) ←
    dgwLoop net c chain height DGW_PASTBLOCKS BlockReading 0 0 0 0 0
  let bnNew := PastDifficultyAverage
  let nTargetTimespan : Int := CountBlocks * 60
  let nActualTimespan := max nActualTimespan (nTargetTimespan / 3)
  let nActualTimespan := min nActualTimespan (nTargetTimespan * 3)
  let bnNew := bnNew * nActualTimespan.toNat
  let bnNew := bnNew / nTargetTimespan.toNat
  return min bnNew MAX_TARGET

/-- `get_block_reading_from_height` local to `get_target_lwma_multi_algo`
(blockchain.py:1080): chain dict first, then `read_header` with every
exception swallowed to `None`; `none` here stands for the
`NotEnoughHeaders` this helper raises, which the collection walk catches
and turns into a break. -/
def lwma_get_block_reading (net : Net) (c : MainChain) (chain : HeadersDict)
    (height : Int) : Option Header :=
  let fromChain := if chain ≠ [] then hget chain height else none
  match fromChain with
  | some last => some last
  | none =>
    match read_header net c height with
    | .ok (some last) => some last
    | _ => none

/-- The ancestor-collection walk of `get_target_lwma_multi_algo`
(blockchain.py:1130): from `h` downward, one fuel per loop iteration of the
source's `range`, stopping at `N+1` collected blocks, at `h < 0`, or at the
first read failure.  Collects in walk order (newest first). -/
def lwmaCollect (net : Net) (c : MainChain) (chain : HeadersDict)
    (current_algo : Algo) : Nat → Int → List Header → List Header
  | 0, _, acc => acc
  | fuel + 1, h, acc =>
    if acc.length ≥ LWMA_AVERAGING_WINDOW + 1 then acc
    else if h < 0 then acc
    else
      match lwma_get_block_reading net c chain h with
      | none => acc
      | some blk =>
        if get_block_algo net blk h = current_algo then
          lwmaCollect net c chain current_algo fuel (h - 1) (acc ++ [blk])
        else
          lwmaCollect net c chain current_algo fuel (h - 1) acc

/-- The number of iterations of the source's
`range(height - 1, max(-1, height - 1 - search_limit - 1), -1)`. -/
def lwmaWalkFuel (height : Int) (search_limit : Int) : Nat :=
  ((height - 1) - max (-1) (height - 1 - search_limit - 1)).toNat

/-- The LWMA-1 accumulation loop `for i in range(1, N + 1)`
(blockchain.py:1159) over the oldest-first block list: returns
(sum_weighted_solvetimes, sum_targets).  `bits_to_target` failures
propagate. -/
def lwmaSums (blocks : List Header) :
    Nat → Nat → Nat → Nat → Nat → Except BErr (Nat × Nat)
  | 0, _, _, sum_w, sum_t => .ok (sum_w, sum_t)
  | fuel + 1, i, prev_time, sum_w, sum_t => do
    match blocks.get? i with
    | none => .error (.genericError "IndexError")
    | some blk =>
      let ts := blk.timestamp
      let ts := if ts ≤ prev_time then prev_time + 1 else ts
      let solve_time := ts - prev_time
      let prev_time := ts
      let T := POW_TARGET_SPACING * 2
      let solve_time := max 1 (min solve_time (6 * T))
      let sum_w := sum_w + i * solve_time
      let blk_target ← bits_to_target blk.bits
      let sum_t := sum_t + blk_target
      lwmaSums blocks fuel (i + 1) prev_time sum_w sum_t

/-- `Blockchain.get_target_lwma_multi_algo(height, chain)`
(blockchain.py:1070).  `T = POW_TARGET_SPACING * ALGOS` where `ALGOS = 2`
iff `height ≥ AuxPowActivationHeight`.  The final `target_to_bits` call
exists only to feed debug logging and cannot raise. -/
def get_target_lwma_multi_algo (net : Net) (c : MainChain) (height : Int)
    (chain : HeadersDict) : Except BErr Nat := do
  let current_header := if chain ≠ [] then hget chain height else none
  match current_header with
  | none => .error .notEnoughHeaders
  | some cur =>
    let current_algo := get_block_algo net cur height
    let N := LWMA_AVERAGING_WINDOW
    let aux_active := height ≥ net.AuxPowActivationHeight
    let ALGOS : Nat := if aux_active then 2 else 1
    let T := POW_TARGET_SPACING * ALGOS
    let pow_limit :=
      if current_algo = .scrypt then SCRYPT_LIMIT else MEOWPOW_LIMIT
    let search_limit := min (height - 1) ((N : Int) * 10)
    let same_algo_blocks :=
      lwmaCollect net c chain current_algo
        (lwmaWalkFuel height search_limit) (height - 1) []
    if same_algo_blocks.length < N + 1 then
      .error .notEnoughHeaders
    else
      let same_algo_blocks := same_algo_blocks.reverse
      match same_algo_blocks with
      | [] => .error (.genericError "IndexError")
      | b0 :: _ =>
        let (sum_weighted_solvetimes, sum_targets) ←
          lwmaSums same_algo_blocks N 1 b0.timestamp 0 0
        let _ := T  -- `T` is re-read inside the loop (6*T clamp)
        let avg_target := sum_targets / N
        let k := N * (N + 1) * T / 2
        let next_target := (avg_target * sum_weighted_solvetimes) / k
        let next_target := min next_target pow_limit
        let _next_bits := target_to_bits next_target
        return next_target

/-- `Blockchain.get_target(height, chain)` (blockchain.py:968), for the main
chain.  `height in range(373, 373+180)` and `range(801212, 801212+180)` are
the KawPow and MeowPow reset windows. -/
def get_target (net : Net) (c : MainChain) (height : Int)
    (chain : HeadersDict) : Except BErr Nat := do
  let dgw_height_checkpoint := is_dgw_height_checkpoint net height
  if net.TESTNET then return 0
  else if height < net.nDGWActivationBlock then
    match net.CHECKPOINTS.get? (height / 2016).toNat with
    | some ht => return ht.2
    | none => .error (.genericError "IndexError")
  else if h1 : dgw_height_checkpoint.isSome then
    let index := height / (net.DGW_CHECKPOINTS_SPACING : Int) -
      (net.DGW_CHECKPOINTS_START : Int) / (net.DGW_CHECKPOINTS_SPACING : Int)
    match net.DGW_CHECKPOINTS.get? index.toNat with
    | some pair =>
      return (if dgw_height_checkpoint.get h1 = 0 then pair.1.2 else pair.2.2)
    | none => .error (.genericError "IndexError")
  else if ¬ net.TESTNET ∧ 373 ≤ height ∧ height < 373 + 180 then
    return KAWPOW_LIMIT
  else if ¬ net.TESTNET ∧ 801212 ≤ height ∧ height < 801212 + 180 then
    return MEOWPOW_LIMIT
  else if height ≤ chain_height c then
    match ← read_header net c height with
    | some header => bits_to_target header.bits
    | none => .error (.genericError "TypeError: NoneType")
  else if height ≥ net.AuxPowActivationHeight then
    get_target_lwma_multi_algo net c height chain
  else
    get_target_dgwv3 net c height chain

/-- The shared header-length decision table of `verify_chunk`
(blockchain.py:583) and `convert_to_kawpow_len` (blockchain.py:719):
AuxPOW version-bit check first, then the KawPow height rule. -/
def header_len_at (net : Net) (data : List Nat) (p : Nat) (s : Int) : Nat :=
  if s ≥ net.AuxPowActivationHeight then
    if leVal (slice data p (p + 4)) &&& (1 <<< 8) ≠ 0 then LEGACY_HEADER_SIZE
    else HEADER_SIZE
  else if s ≥ net.KawpowActivationHeight then HEADER_SIZE
  else LEGACY_HEADER_SIZE

/-- The `while p < len(data)` loop of `Blockchain.verify_chunk`
(blockchain.py:580), one fuel per iteration (each iteration advances `p` by
at least 80, so `data.length` fuel suffices).  Returns the final height
counter `s`.  Only `MissingHeader` from `get_hash` and `NotEnoughHeaders`
from `get_target` are caught, exactly as in the source; everything else
propagates.  The source's error-logging blocks are pure output and omitted. -/
def verifyChunkLoop (net : Net) (K : Kernels) (c : MainChain)
    (data : List Nat) :
    Nat → Nat → Int → List Nat → HeadersDict → Except BErr Int
  | 0, _, s, _, _ => .ok s
  | fuel + 1, p, s, prev_hash, headers =>
    if p ≥ data.length then .ok s
    else
      let header_len := header_len_at net data p s
      let raw := slice data p (p + header_len)
      if raw.length < header_len then .ok s
      else do
        let p := p + header_len
        let expected_header_hash ←
          match get_hash net K c s with
          | .ok hsh => pure (some hsh)
          | .error (.missingHeader _) => pure (none : Option (List Nat))
          | .error e => throw e
        let header ← deserialize_header net raw s
        let headers : HeadersDict := (s, header) :: headers
        let ts : Except BErr (Nat × Bool) :=
          if (net.DGW_CHECKPOINTS_START : Int) ≤ s ∧ s ≤ net.max_checkpoint then
            if (is_dgw_height_checkpoint net s).isSome then
              match get_target net c s headers with
              | .ok target => .ok (target, false)
              | .error .notEnoughHeaders => do
                let target ← bits_to_target header.bits
                pure (target, true)
              | .error e => .error e
            else do
              let target ← bits_to_target header.bits
              pure (target, false)
          else do
            let target ← bits_to_target header.bits
            pure (target, true)
        let (target, skip_bits_check) ← ts
        let _ ← verify_header net K header prev_hash target
          expected_header_hash skip_bits_check
        let prev_hash :=
          if s > net.max_checkpoint ∧ (p : Int) < (data.length : Int) - 36 then
            hash_encode (slice data (p + 4) (p + 36))
          else hash_header net K header
        verifyChunkLoop net K c data fuel p (s + 1) prev_hash headers

/-- `Blockchain.verify_chunk(start_height, data)` (blockchain.py:573), for
the main chain. -/
def verify_chunk (net : Net) (K : Kernels) (c : MainChain)
    (start_height : Int) (data : List Nat) : Except BErr Unit := do
  let prev_hash ← get_hash net K c (start_height - 1)
  let s ← verifyChunkLoop net K c data data.length 0 start_height prev_hash []
  let processed_headers := s - start_height
  if (net.DGW_CHECKPOINTS_START : Int) ≤ start_height ∧
      start_height ≤ net.max_checkpoint then
    if ¬ (start_height % (net.DGW_CHECKPOINTS_SPACING : Int) = 0) then
      throw (.assertionError "dgw chunk not from start")
    else if ¬ (processed_headers = (net.DGW_CHECKPOINTS_SPACING : Int)) then
      throw (.assertionError "dgw chunk not correct size")
    else return ()
  else return ()

/-- The `while p < len(chunk)` loop of `convert_to_kawpow_len` local to
`save_chunk` (blockchain.py:713): re-encode the mixed-length chunk as
consecutive 120-byte records, padding 80-byte records with 40 zero bytes. -/
def convertLoop (net : Net) (chunk : List Nat) :
    Nat → Nat → Int → List Nat → List Nat
  | 0, _, _, r => r
  | fuel + 1, p, s, r =>
    if p ≥ chunk.length then r
    else
      let hdr_len := header_len_at net chunk p s
      let r :=
        if hdr_len = LEGACY_HEADER_SIZE then
          r ++ slice chunk p (p + hdr_len) ++
            List.replicate (HEADER_SIZE - LEGACY_HEADER_SIZE) 0
        else r ++ slice chunk p (p + hdr_len)
      convertLoop net chunk fuel (p + hdr_len) (s + 1) r

/-- `convert_to_kawpow_len()` (blockchain.py:713) including its final
length-multiple check (`raise Exception('Header extension error')`). -/
def convert_to_kawpow_len (net : Net) (start_height : Int)
    (chunk : List Nat) : Except BErr (List Nat) :=
  let r := convertLoop net chunk chunk.length 0 start_height []
  if r.length % HEADER_SIZE ≠ 0 then
    .error (.genericError "Header extension error")
  else .ok r

/-- `Blockchain.write(data, offset, truncate)` (blockchain.py:845): optional
truncation at `offset` (only when `offset ≠ _size * HEADER_SIZE`), then an
in-place write at `offset` (zero-filling any gap past EOF, as POSIX seek
plus write does), then `update_size`. -/
def chain_write (c : MainChain) (data : List Nat) (offset : Nat)
    (truncate : Bool) : MainChain :=
  let f := c.file
  let f := if truncate ∧ offset ≠ c.size * HEADER_SIZE then f.take offset else f
  let f := (f.take offset ++ List.replicate (offset - f.length) 0) ++ data ++
    f.drop (offset + data.length)
  update_size { c with file := f }

/-- `Blockchain.swap_with_parent()` (blockchain.py:771) for the main chain:
`_swap_with_parent` returns `False` immediately when `parent is None`, so
the loop exits on its first iteration and the state is unchanged. -/
def swap_with_parent (c : MainChain) : MainChain := c

/-- `Blockchain.save_chunk(start_height, chunk)` (blockchain.py:694), for
the main chain (`parent is None`, so the checkpoint-region delegation to the
best chain does not trigger and `delta_bytes ≥ 0`, making the trimming
branch dead; both appear in the source only for fork chains).  The error
case carries the chain state at the raise site: the post-write read-back
verification (blockchain.py:744-767) raises *after* `write` has already
mutated and fsynced the file. -/
def save_chunk (net : Net) (c : MainChain) (start_height : Nat)
    (chunk : List Nat) : Except (BErr × MainChain) MainChain :=
  let chunk_within_checkpoint_region :=
    (start_height : Int) ≤ net.max_checkpoint
  let delta_height : Int := (start_height : Int) - 0
  let delta_bytes : Int := delta_height * HEADER_SIZE
  let truncate := ¬ chunk_within_checkpoint_region
  match convert_to_kawpow_len net start_height chunk with
  | .error e => .error (e, c)
  | .ok chunk2 =>
    let c1 := chain_write c chunk2 delta_bytes.toNat truncate
    match read_header net c1 start_height with
    | .error e => .error (e, c1)
    | .ok saved_header =>
      match deserialize_header net (chunk2.take HEADER_SIZE) start_height with
      | .error e => .error (e, c1)
      | .ok expected_header =>
        if saved_header ≠ some expected_header then
          .error (.assertionError "Header mismatch", c1)
        else
          .ok (swap_with_parent c1)

/-- `Blockchain.connect_chunk(start_height, hexdata)` (blockchain.py:1336):
verify, then persist, returning `True`; any `BaseException` is caught and
turned into a `False` return, with whatever state the raise left behind.
The `hexdata` argument is taken already hex-decoded (`bfh`). -/
def connect_chunk (net : Net) (K : Kernels) (c : MainChain)
    (start_height : Nat) (data : List Nat) : Bool × MainChain :=
  match verify_chunk net K c start_height data with
  | .error _ => (false, c)
  | .ok () =>
    match save_chunk net c start_height data with
    | .ok c2 => (true, c2)
    | .error (_, c2) => (false, c2)

/-! ## Concrete instantiations used by witnesses and counterexamples -/

instance {ε α : Type} [DecidableEq ε] [DecidableEq α] :
    DecidableEq (Except ε α)
  | .ok a, .ok b =>
    if h : a = b then isTrue (by rw [h]) else
      isFalse (by intro hc; cases hc; exact h rfl)
  | .ok _, .error _ => isFalse (by intro hc; cases hc)
  | .error _, .ok _ => isFalse (by intro hc; cases hc)
  | .error e, .error f =>
    if h : e = f then isTrue (by rw [h]) else
      isFalse (by intro hc; cases hc; exact h rfl)

/-- Kernels returning constant digests; the engine's control flow is
independent of kernel outputs, so witnesses may fix them arbitrarily. -/
def constKernels (v : Nat) : Kernels :=
  { sha256d := fun _ => List.replicate 32 v,
    x16r := fun _ => List.replicate 32 v,
    x16rv2 := fun _ => List.replicate 32 v,
    kawpow_light_verify := fun _ _ _ => List.replicate 32 v,
    meowpow_light_verify := fun _ _ _ => List.replicate 32 v,
    scryptAvailable := false,
    scrypt := fun _ => none }

/-- Mainnet-shaped parameters (`MeowcoinMainnet`): the DGW checkpoint list
itself ships in a JSON file outside the sources, so it is left empty here;
theorems that must be independent of it quantify over `net`. -/
def mainnetShape : Net :=
  { TESTNET := false, GENESIS := List.replicate 32 9,
    CHECKPOINTS := [], DGW_CHECKPOINTS := [],
    DGW_CHECKPOINTS_SPACING := 2016, DGW_CHECKPOINTS_START := 338688,
    AuxPowActivationHeight := 100, KawpowActivationHeight := 373,
    KawpowActivationTS := 1662493424, MeowpowActivationTS := 1710799200,
    X16Rv2ActivationTS := 1569945600, nDGWActivationBlock := 373 }

/-- A testnet-flavoured configuration (`TESTNET`, empty checkpoint lists)
with a nonzero `DGW_CHECKPOINTS_START`, used to drive `connect_chunk`
through its post-write failure path on a one-record chunk. -/
def testnetShape : Net :=
  { TESTNET := true, GENESIS := List.replicate 32 9,
    CHECKPOINTS := [], DGW_CHECKPOINTS := [],
    DGW_CHECKPOINTS_SPACING := 2016, DGW_CHECKPOINTS_START := 2016,
    AuxPowActivationHeight := 100000, KawpowActivationHeight := 1,
    KawpowActivationTS := 1585159201, MeowpowActivationTS := 1585159200,
    X16Rv2ActivationTS := 1567533600, nDGWActivationBlock := 1 }

/-- A legacy header with all-core fields, used by witnesses. -/
def legacyHdr : Header :=
  { version := 0, prev_block_hash := List.replicate 32 0,
    merkle_root := List.replicate 32 0, timestamp := 0, bits := 0,
    nonce := some 0, nheight := none, nonce64 := none,
    mix_hash := none, block_height := 10 }

/-- An extended header that carries its 64-bit nonce in the `nonce64` field,
as the spec's data model describes extended headers. -/
def extHdr64 : Header :=
  { version := 0, prev_block_hash := List.replicate 32 2,
    merkle_root := List.replicate 32 3, timestamp := 5, bits := 6,
    nonce := none, nheight := some 1, nonce64 := some 7,
    mix_hash := some (List.replicate 32 4), block_height := 0 }

/-! ## C1: Scrypt unavailability is not surfaced as an error -/

/-- C1: the claim says that with the Scrypt kernel unavailable (or failing),
AuxPOW validation fails with an error and the engine never silently
substitutes another hash function.  The code does the opposite: with
`_SCRYPT_AVAILABLE` false, and likewise when the scrypt call raises,
`hash_raw_header_auxpow` returns the SHA-256d digest of the header instead
of raising, for every header — the divergence the claim (and the source's
own comments, which label the fallback INCORRECT) rules out. -/
theorem c1_auxpow_silent_sha256d_fallback (K : Kernels) (header : List Nat) :
    hash_raw_header_auxpow { K with scryptAvailable := false } header =
      .sha256dFallback (hash_encode (K.sha256d (header.take 80))) ∧
    hash_raw_header_auxpow
        { K with scryptAvailable := true, scrypt := fun _ => none } header =
      .sha256dFallback (hash_encode (K.sha256d (header.take 80))) := by
  constructor <;> rfl

/-! ## C2: the AuxPOW short-circuit in verify_header -/

/-- C2: for a non-testnet AuxPOW header (height at or past activation,
version bit 8 set) whose `prev_block_hash` matches, `verify_header` succeeds
regardless of bits, target and the skip flag; the header hash is compared
only when an `expected_header_hash` is supplied, and a mismatch raises
`InvalidHeader`. -/
theorem c2_verify_header_auxpow (net : Net) (K : Kernels) (header : Header)
    (prev_hash : List Nat) (target : Nat) (sb : Bool)
    (hTn : net.TESTNET = false)
    (hHt : header.block_height ≥ net.AuxPowActivationHeight)
    (hBit : header.version &&& (1 <<< 8) ≠ 0)
    (hPrev : prev_hash = header.prev_block_hash) :
    verify_header net K header prev_hash target none sb = .ok () ∧
    ∀ e : List Nat, e.length = 32 →
      verify_header net K header prev_hash target (some e) sb =
        (if e = hash_header net K header then .ok ()
         else .error (.invalidHeader "hash mismatches with expected")) := by
  have hne : ¬ prev_hash ≠ header.prev_block_hash := by simp [hPrev]
  have hBit' : header.version &&& 256 ≠ 0 := by simpa using hBit
  constructor
  · simp [verify_header, hne, hTn, hBit', hHt, truthy]
  · intro e he
    have heNil : e ≠ [] := by
      intro h0; rw [h0] at he; simp at he
    by_cases heq : e = hash_header net K header
    · simp [verify_header, hne, hTn, hBit', hHt, truthy, heNil, heq]
    · simp [verify_header, hne, hTn, hBit', hHt, truthy, heNil, heq]

/-- Witness for C2 at a concrete AuxPOW header. -/
theorem c2_witness :
    verify_header mainnetShape (constKernels 0)
        { legacyHdr with version := 256, block_height := 200 }
        (List.replicate 32 0) 0 none false = .ok () :=
  (c2_verify_header_auxpow mainnetShape (constKernels 0)
    { legacyHdr with version := 256, block_height := 200 }
    (List.replicate 32 0) 0 false rfl (by decide) (by decide) rfl).1

/-! ## C6: LWMA raises NotEnoughHeaders when the window is short -/

/-- C6: computing the LWMA multi-algo target at a height at or after
AuxPOW activation raises `NotEnoughHeaders` — it does not swallow the
condition or return a target — whenever the bounded backward walk from
`height - 1` collects fewer than `N + 1 = 91` ancestors of the candidate's
algorithm. -/
theorem c6_lwma_not_enough_headers (net : Net) (c : MainChain)
    (chain : HeadersDict) (height : Int) (cur : Header)
    (_hAux : height ≥ net.AuxPowActivationHeight)
    (hCur : (if chain ≠ [] then hget chain height else none) = some cur)
    (hCount : (lwmaCollect net c chain (get_block_algo net cur height)
        (lwmaWalkFuel height
          (min (height - 1) ((LWMA_AVERAGING_WINDOW : Int) * 10)))
        (height - 1) []).length < LWMA_AVERAGING_WINDOW + 1) :
    get_target_lwma_multi_algo net c height chain =
      .error .notEnoughHeaders := by
  rw [get_target_lwma_multi_algo, hCur]
  simp only [hCount, if_pos]

/-- Witness for C6: a chain with an empty header file and a single candidate
header in the headers dict; the walk finds no stored ancestor at all. -/
theorem c6_witness :
    get_target_lwma_multi_algo { mainnetShape with AuxPowActivationHeight := 0 }
        ⟨[], 0⟩ 5 [(5, { legacyHdr with block_height := 5 })] =
      .error .notEnoughHeaders :=
  c6_lwma_not_enough_headers _ _ _ 5 { legacyHdr with block_height := 5 }
    (by decide) (by decide) (by decide)

/-! ## C7: the KawPow and MeowPow difficulty-reset windows -/

/-- C7: on mainnet parameters (non-testnet, DGW checkpoints spaced 2016
starting at height 338688, DGW activation at 373) `get_target` returns
`KAWPOW_LIMIT` on every height in [373, 552] and `MEOWPOW_LIMIT` on every
height in [801212, 801391], for every chain state, headers dict and DGW
checkpoint list (both windows avoid every DGW sentinel position, whatever
the list's length). -/
theorem c7_reset_windows (net : Net) (c : MainChain) (chain : HeadersDict)
    (h : Int)
    (hTn : net.TESTNET = false)
    (hSp : net.DGW_CHECKPOINTS_SPACING = 2016)
    (hSt : net.DGW_CHECKPOINTS_START = 338688)
    (hDgw : net.nDGWActivationBlock = 373) :
    (373 ≤ h ∧ h ≤ 552 → get_target net c h chain = .ok KAWPOW_LIMIT) ∧
    (801212 ≤ h ∧ h ≤ 801391 →
      get_target net c h chain = .ok MEOWPOW_LIMIT) := by
  constructor
  · rintro ⟨hlo, hhi⟩
    have hcp : is_dgw_height_checkpoint net h = none := by
      rw [is_dgw_height_checkpoint, if_pos]
      rw [hSt]; omega
    rw [get_target]
    simp only [hcp, hTn, hDgw]
    have h1 : ¬ h < (373 : Int) := by omega
    have h2a : (373 : Int) ≤ h := by omega
    have h2b : h < (553 : Int) := by omega
    simp [h1, h2a, h2b]
    rfl
  · rintro ⟨hlo, hhi⟩
    have hcp : is_dgw_height_checkpoint net h = none := by
      rw [is_dgw_height_checkpoint, if_neg (by rw [hSt]; omega)]
      by_cases hmax : h > net.max_checkpoint
      · rw [if_pos hmax]
      · rw [if_neg hmax, hSp]
        have hm1 : ¬ (h % 2016 = 0) := by omega
        have hm2 : ¬ (h % 2016 = 2015) := by omega
        simp [hm1, hm2]
    rw [get_target]
    simp only [hcp, hTn, hDgw]
    have h1 : ¬ h < (373 : Int) := by omega
    have h2 : ¬ h < (553 : Int) := by omega
    have h3a : (801212 : Int) ≤ h := by omega
    have h3b : h < (801392 : Int) := by omega
    simp [h1, h2, h3a, h3b]
    rfl

/-- Witness for C7 at heights 400 and 801300 under the mainnet shape. -/
theorem c7_witness :
    get_target mainnetShape ⟨[], 0⟩ 400 [] = .ok KAWPOW_LIMIT ∧
    get_target mainnetShape ⟨[], 0⟩ 801300 [] = .ok MEOWPOW_LIMIT :=
  ⟨(c7_reset_windows mainnetShape ⟨[], 0⟩ [] 400 rfl rfl rfl rfl).1
      (by decide),
   (c7_reset_windows mainnetShape ⟨[], 0⟩ [] 801300 rfl rfl rfl rfl).2
      (by decide)⟩

/-! ## C9: order of the expected-hash and PoW checks -/

/-- C9 counterexample: a concrete non-testnet, non-AuxPOW header at a fully
validated height whose hash both exceeds the target and differs from the
supplied expected hash.  The claim says the insufficient-proof-of-work error
is raised; the code raises the expected-hash mismatch, because in
`verify_header` the expected-hash comparison (blockchain.py:566) precedes
the PoW comparison (blockchain.py:570). -/
theorem c9_counterexample :
    verify_header mainnetShape (constKernels 255) legacyHdr
        (List.replicate 32 0) 0 (some (List.replicate 32 5)) true =
      .error (.invalidHeader "hash mismatches with expected") ∧
    beVal (hash_header mainnetShape (constKernels 255) legacyHdr) > 0 ∧
    (BErr.invalidHeader "hash mismatches with expected" ≠
      BErr.invalidHeader "insufficient proof of work") := by
  refine ⟨by decide, by decide, by decide⟩

/-- C9 amended: `verify_header` performs the expected-hash check (step 7)
before the PoW check (step 6): for every non-testnet, non-AuxPOW header at a
height where PoW is validated, with the bits check passing or skipped, whose
hash both differs from the supplied expected hash and exceeds the target,
the failure raised is the expected-hash mismatch, not insufficient proof of
work. -/
theorem c9_amended (net : Net) (K : Kernels) (header : Header)
    (prev_hash : List Nat) (target : Nat) (e : List Nat) (sb : Bool)
    (hTn : net.TESTNET = false)
    (hNaux : ¬ (header.version &&& (1 <<< 8) ≠ 0 ∧
      header.block_height ≥ net.AuxPowActivationHeight))
    (hPow : header.block_height > net.max_checkpoint →
      header.block_height % 10 = 0)
    (hPrev : prev_hash = header.prev_block_hash)
    (hBits : sb = true ∨ target_to_bits target = header.bits)
    (hE : e ≠ [])
    (hMm : e ≠ hash_header net K header)
    (_hPoW : beVal (hash_header net K header) > target) :
    verify_header net K header prev_hash target (some e) sb =
      .error (.invalidHeader "hash mismatches with expected") := by
  have hne : ¬ prev_hash ≠ header.prev_block_hash := by simp [hPrev]
  have hNaux' : ¬ (header.version &&& 256 ≠ 0 ∧
      header.block_height ≥ net.AuxPowActivationHeight) := by simpa using hNaux
  by_cases hgt : header.block_height > net.max_checkpoint
  · have h10 := hPow hgt
    rcases hBits with hSb | hTb
    · simp [verify_header, hne, hTn, hNaux', hgt, h10, hSb, truthy, hE, hMm]
      rfl
    · simp [verify_header, hne, hTn, hNaux', hgt, h10, hTb, truthy, hE, hMm]
      rfl
  · rcases hBits with hSb | hTb
    · simp [verify_header, hne, hTn, hNaux', hgt, hSb, truthy, hE, hMm]
      rfl
    · simp [verify_header, hne, hTn, hNaux', hgt, hTb, truthy, hE, hMm]
      rfl

/-- Witness for C9 amended, applying it at the counterexample's input. -/
theorem c9_witness :
    verify_header mainnetShape (constKernels 255) legacyHdr
        (List.replicate 32 0) 0 (some (List.replicate 32 5)) true =
      .error (.invalidHeader "hash mismatches with expected") :=
  c9_amended mainnetShape (constKernels 255) legacyHdr
    (List.replicate 32 0) 0 (List.replicate 32 5) true
    rfl (by decide) (by decide) rfl (.inl rfl) (by decide) (by decide)
    (by decide)

/-! ## C10: serialize_header format selection -/

/-- `(int_to_hex i k).length = k`. -/
theorem int_to_hex_length (i k : Nat) : (int_to_hex i k).length = k := by
  induction k generalizing i with
  | zero => rfl
  | succ n ih => simp [int_to_hex, ih]

/-- `slice (xs ++ ys) a (a + n) = ys.take n` when `xs.length = a`. -/
theorem slice_append (xs ys : List Nat) (a n : Nat) (hx : xs.length = a) :
    slice (xs ++ ys) a (a + n) = ys.take n := by
  rw [slice, List.drop_left' hx]
  congr 1
  omega

/-- C10: `serialize_header` selects the output format solely from presence
of the `'nheight'` field (not from height, version bit or timestamp, over
all of which the statement quantifies): with `'nheight'` present (and the
`'mix_hash'` field the format requires) it emits exactly 120 bytes whose
nonce field encodes `nonce64` if present else `nonce`; without `'nheight'`
it emits exactly the unpadded 80-byte concatenation — the internal padding
branch never fires. -/
theorem c10_serialize_format (h : Header)
    (hp : h.prev_block_hash.length = 32) (hm : h.merkle_root.length = 32) :
    (∀ nh, h.nheight = some nh → ∀ m, h.mix_hash = some m → m.length = 32 →
      (serialize_header h).length = 120 ∧
      slice (serialize_header h) 80 88 =
        int_to_hex (h.nonce64.getD (h.nonce.getD 0)) 8) ∧
    (h.nheight = none →
      (serialize_header h).length = 80 ∧
      serialize_header h =
        int_to_hex h.version 4 ++ rev_hex h.prev_block_hash ++
        rev_hex h.merkle_root ++ int_to_hex h.timestamp 4 ++
        int_to_hex h.bits 4 ++ int_to_hex (h.nonce.getD 0) 4) := by
  constructor
  · intro nh hnh m hmx hml
    have hs : serialize_header h =
        (int_to_hex h.version 4 ++ rev_hex h.prev_block_hash ++
          rev_hex h.merkle_root ++ int_to_hex h.timestamp 4 ++
          int_to_hex h.bits 4 ++ int_to_hex (h.nheight.getD 0) 4) ++
        (int_to_hex (h.nonce64.getD (h.nonce.getD 0)) 8 ++
          rev_hex (h.mix_hash.getD [])) := by
      rw [serialize_header]
      simp [hnh]
    constructor
    · rw [hs]
      simp [int_to_hex_length, rev_hex, hp, hm, hmx, hml]
    · rw [hs]
      have hlen : (int_to_hex h.version 4 ++ rev_hex h.prev_block_hash ++
          rev_hex h.merkle_root ++ int_to_hex h.timestamp 4 ++
          int_to_hex h.bits 4 ++ int_to_hex (h.nheight.getD 0) 4).length
          = 80 := by
        simp [int_to_hex_length, rev_hex, hp, hm]
      have := slice_append _ (int_to_hex (h.nonce64.getD (h.nonce.getD 0)) 8
        ++ rev_hex (h.mix_hash.getD [])) 80 8 hlen
      rw [this]
      rw [List.take_left' (int_to_hex_length _ 8)]
  · intro hnone
    have hs : serialize_header h =
        int_to_hex h.version 4 ++ rev_hex h.prev_block_hash ++
        rev_hex h.merkle_root ++ int_to_hex h.timestamp 4 ++
        int_to_hex h.bits 4 ++ int_to_hex (h.nonce.getD 0) 4 := by
      rw [serialize_header]
      simp [hnone]
    refine ⟨?_, hs⟩
    rw [hs]
    simp [int_to_hex_length, rev_hex, hp, hm]

/-- Witness for C10 on concrete extended and legacy headers. -/
theorem c10_witness :
    (serialize_header extHdr64).length = 120 ∧
    (serialize_header legacyHdr).length = 80 :=
  ⟨((c10_serialize_format extHdr64 (by decide) (by decide)).1 1 rfl
      (List.replicate 32 4) rfl (by decide)).1,
   ((c10_serialize_format legacyHdr (by decide) (by decide)).2 rfl).1⟩

/-! ## C8 counterexample: the round trip moves `nonce64` to `nonce` -/

set_option maxRecDepth 4000 in
/-- C8 counterexample: an extended header carrying its 64-bit nonce in the
`nonce64` field — as the spec's data model describes extended headers —
does not round-trip: deserialisation of its serialisation stores the value
under `nonce` and drops `nonce64`. -/
theorem c8_counterexample :
    deserialize_header mainnetShape (serialize_header extHdr64)
        extHdr64.block_height =
      .ok { extHdr64 with nonce := some 7, nonce64 := none } ∧
    ({ extHdr64 with nonce := some 7, nonce64 := none } : Header) ≠
      extHdr64 := by
  refine ⟨by decide, by decide⟩

/-! ## C3: connect_chunk atomicity -/

set_option maxRecDepth 8000 in
/-- C3 counterexample: on a fresh chain under the testnet-flavoured
configuration, an 80-byte all-zero record at height 0 passes `verify_chunk`
(testnet verification checks only linkage, and the genesis prev-hash is the
zero hash), `save_chunk` pads it to a 120-byte all-zero record and writes
it, and only then the post-write read-back check fails — `read_header`
reads the all-zero record as the empty sentinel `None` — so `connect_chunk`
returns `False` with the header file already grown from empty to one record
and the chain height advanced: the claimed "no partial writes on a False
return" is violated. -/
theorem c3_counterexample :
    connect_chunk testnetShape (constKernels 0) ⟨[], 0⟩ 0
        (List.replicate 80 0) =
      (false, ⟨List.replicate 120 0, 1⟩) ∧
    (⟨List.replicate 120 0, 1⟩ : MainChain) ≠ ⟨[], 0⟩ ∧
    chain_height ⟨List.replicate 120 0, 1⟩ ≠ chain_height ⟨[], 0⟩ := by
  refine ⟨by decide, by decide, by decide⟩

/-- Effect of `write` on the written region and on the cached size. -/
theorem chain_write_slice (c : MainChain) (data : List Nat) (off : Nat)
    (tr : Bool) :
    slice (chain_write c data off tr).file off (off + data.length) = data ∧
    (chain_write c data off tr).size =
      (chain_write c data off tr).file.length / HEADER_SIZE := by
  refine ⟨?_, rfl⟩
  show slice ((_ ++ List.replicate _ 0) ++ data ++ _) off (off + data.length)
      = data
  set f := if tr ∧ off ≠ c.size * HEADER_SIZE then c.file.take off else c.file
    with hf
  have hpre : (f.take off ++ List.replicate (off - f.length) 0).length = off := by
    simp only [List.length_append, List.length_take, List.length_replicate]
    omega
  rw [slice, List.append_assoc, List.drop_left' hpre]
  rw [show off + data.length - off = data.length by omega]
  exact List.take_left' rfl

/-- A successful `save_chunk` is exactly a `write` of the converted chunk. -/
theorem save_chunk_ok (net : Net) (c : MainChain) (start : Nat)
    (chunk : List Nat) (c2 : MainChain)
    (hs : save_chunk net c start chunk = .ok c2) :
    ∃ conv, convert_to_kawpow_len net start chunk = .ok conv ∧
      conv.length % HEADER_SIZE = 0 ∧
      c2 = chain_write c conv
        ((((start : Nat) : Int) - 0) * (HEADER_SIZE : Nat)).toNat
        (¬ ((start : Nat) : Int) ≤ net.max_checkpoint) := by
  simp only [save_chunk] at hs
  split at hs
  · cases hs
  · rename_i conv heq
    refine ⟨conv, heq, ?_, ?_⟩
    · rw [convert_to_kawpow_len] at heq
      split at heq
      · cases heq
      · rename_i hm
        cases heq
        omega
    · split at hs
      · cases hs
      · split at hs
        · cases hs
        · split at hs
          · cases hs
          · cases hs
            rfl

/-- C3 amended: a chunk is applied in full or not at all *as long as the
failure arises during verification*: if `verify_chunk` fails,
`connect_chunk` returns `False` with the chain state untouched (the
verifier performs no writes), and if `connect_chunk` returns `True` the
whole converted chunk (a whole number of 120-byte records) has been
persisted at the chunk's offset.  However — per the counterexample — when
`save_chunk`'s post-write consistency check fails, `connect_chunk` returns
`False` with the write already performed. -/
theorem c3_amended :
    (∀ (net : Net) (K : Kernels) (c : MainChain) (start : Nat)
        (data : List Nat) (e : BErr),
      verify_chunk net K c start data = .error e →
      connect_chunk net K c start data = (false, c)) ∧
    (∀ (net : Net) (K : Kernels) (c : MainChain) (start : Nat)
        (data : List Nat) (c2 : MainChain),
      connect_chunk net K c start data = (true, c2) →
      ∃ conv, convert_to_kawpow_len net start data = .ok conv ∧
        conv.length % HEADER_SIZE = 0 ∧
        slice c2.file (start * HEADER_SIZE)
          (start * HEADER_SIZE + conv.length) = conv ∧
        c2.size = c2.file.length / HEADER_SIZE) := by
  constructor
  · intro net K c start data e hv
    rw [connect_chunk, hv]
  · intro net K c start data c2 h
    rw [connect_chunk] at h
    cases hv : verify_chunk net K c start data with
    | error e => rw [hv] at h; simp at h
    | ok u =>
      cases u
      rw [hv] at h
      cases hs : save_chunk net c start data with
      | error p => rw [hs] at h; simp at h
      | ok cc =>
        rw [hs] at h
        have hcc : cc = c2 := congrArg Prod.snd h
        subst hcc
        obtain ⟨conv, hcv, hmod, hc2⟩ := save_chunk_ok net c start data cc hs
        have hoff : ((((start : Nat) : Int) - 0) * (HEADER_SIZE : Nat)).toNat =
            start * HEADER_SIZE := by
          simp only [HEADER_SIZE]
          omega
        rw [hoff] at hc2
        refine ⟨conv, hcv, hmod, ?_, ?_⟩
        · rw [hc2]
          exact (chain_write_slice c conv (start * HEADER_SIZE) _).1
        · rw [hc2]
          exact (chain_write_slice c conv (start * HEADER_SIZE) _).2

set_option maxRecDepth 8000 in
/-- Witness for C3 amended: part one at a one-record chunk whose prev-hash
linkage fails (state unchanged), part two at a connecting chunk that
persists as one padded record. -/
theorem c3_witness :
    connect_chunk testnetShape (constKernels 0) ⟨[], 0⟩ 0
        (List.replicate 80 1) = (false, ⟨[], 0⟩) ∧
    (∃ conv,
      convert_to_kawpow_len testnetShape 0
          (List.replicate 4 0 ++ List.replicate 32 0 ++ List.replicate 44 1) =
        .ok conv ∧
      conv.length % HEADER_SIZE = 0 ∧
      slice (connect_chunk testnetShape (constKernels 0) ⟨[], 0⟩ 0
          (List.replicate 4 0 ++ List.replicate 32 0 ++
            List.replicate 44 1)).2.file (0 * HEADER_SIZE)
          (0 * HEADER_SIZE + conv.length) = conv ∧
      (connect_chunk testnetShape (constKernels 0) ⟨[], 0⟩ 0
          (List.replicate 4 0 ++ List.replicate 32 0 ++
            List.replicate 44 1)).2.size =
        (connect_chunk testnetShape (constKernels 0) ⟨[], 0⟩ 0
          (List.replicate 4 0 ++ List.replicate 32 0 ++
            List.replicate 44 1)).2.file.length / HEADER_SIZE) := by
  constructor
  · exact c3_amended.1 testnetShape (constKernels 0) ⟨[], 0⟩ 0
      (List.replicate 80 1) (.invalidHeader "prev hash mismatch") (by decide)
  · exact c3_amended.2 testnetShape (constKernels 0) ⟨[], 0⟩ 0
      (List.replicate 4 0 ++ List.replicate 32 0 ++ List.replicate 44 1)
      _ (by decide)

/-! ## Byte-string arithmetic toolkit -/

theorem beBytes_length (k n : Nat) : (beBytes k n).length = k := by
  induction k generalizing n with
  | zero => rfl
  | succ m ih => simp [beBytes, ih]

theorem beVal_append (xs ys : List Nat) :
    beVal (xs ++ ys) = beVal xs * 256 ^ ys.length + beVal ys := by
  have haux : ∀ (s : List Nat) (a : Nat),
      s.foldl (fun acc b => acc * 256 + b) a =
        a * 256 ^ s.length + s.foldl (fun acc b => acc * 256 + b) 0 := by
    intro s
    induction s with
    | nil => intro a; simp
    | cons x t ih =>
      intro a
      simp only [List.foldl_cons, List.length_cons]
      rw [ih (a * 256 + x), ih (0 * 256 + x)]
      ring
  rw [beVal, List.foldl_append, haux]
  rfl

theorem beVal_beBytes (k n : Nat) (h : n < 256 ^ k) :
    beVal (beBytes k n) = n := by
  induction k generalizing n with
  | zero =>
    simp only [Nat.pow_zero, Nat.lt_one_iff] at h
    simp [beBytes, beVal, h]
  | succ m ih =>
    rw [beBytes, beVal_append]
    have hdiv : n / 256 < 256 ^ m := by
      rw [Nat.div_lt_iff_lt_mul (by norm_num)]
      calc n < 256 ^ (m + 1) := h
        _ = 256 ^ m * 256 := by ring
    rw [ih (n / 256) hdiv]
    show n / 256 * 256 ^ 1 + (0 * 256 + n % 256) = n
    simp
    omega

theorem beVal_replicate_zero (k : Nat) : beVal (List.replicate k 0) = 0 := by
  induction k with
  | zero => rfl
  | succ m ih =>
    have : List.replicate (m + 1) 0 = List.replicate m 0 ++ [0] := by
      rw [List.replicate_succ']
    rw [this, beVal_append, ih]
    rfl

theorem beBytes_zero (k : Nat) : beBytes k 0 = List.replicate k 0 := by
  induction k with
  | zero => rfl
  | succ m ih =>
    rw [beBytes, Nat.zero_div, ih, ← List.replicate_succ']

theorem int_to_hex_reverse (k i : Nat) :
    (int_to_hex i k).reverse = beBytes k i := by
  induction k generalizing i with
  | zero => rfl
  | succ m ih =>
    rw [int_to_hex, List.reverse_cons, ih, beBytes]

theorem leVal_int_to_hex (k i : Nat) (h : i < 256 ^ k) :
    leVal (int_to_hex i k) = i := by
  rw [leVal, int_to_hex_reverse, beVal_beBytes k i h]

theorem int_to_hex_eq_zero (k i : Nat) (h : i < 256 ^ k)
    (hz : int_to_hex i k = List.replicate k 0) : i = 0 := by
  have h1 : leVal (int_to_hex i k) = i := leVal_int_to_hex k i h
  rw [hz] at h1
  rw [leVal, List.reverse_replicate, beVal_replicate_zero] at h1
  omega

theorem beBytes_cons_zero (k n : Nat) (h : n < 256 ^ k) :
    beBytes (k + 1) n = 0 :: beBytes k n := by
  induction k generalizing n with
  | zero =>
    simp only [Nat.pow_zero, Nat.lt_one_iff] at h
    simp [beBytes, h]
  | succ m ih =>
    have hdiv : n / 256 < 256 ^ m := by
      rw [Nat.div_lt_iff_lt_mul (by norm_num)]
      calc n < 256 ^ (m + 1) := h
        _ = 256 ^ m * 256 := by ring
    rw [show beBytes (m + 1 + 1) n = beBytes (m + 1) (n / 256) ++ [n % 256]
        from rfl]
    rw [ih (n / 256) hdiv]
    rfl

theorem beBytes_leading_zeros (z k n : Nat) (h : n < 256 ^ k) :
    beBytes (z + k) n = List.replicate z 0 ++ beBytes k n := by
  induction z with
  | zero => simp
  | succ m ih =>
    have hk : n < 256 ^ (m + k) := by
      calc n < 256 ^ k := h
        _ ≤ 256 ^ (m + k) := Nat.pow_le_pow_right (by norm_num) (by omega)
    rw [show m + 1 + k = (m + k) + 1 by omega]
    rw [beBytes_cons_zero (m + k) n hk, ih]
    rfl

theorem beBytes_split (k m n : Nat) :
    beBytes (k + m) n = beBytes k (n / 256 ^ m) ++ beBytes m (n % 256 ^ m) := by
  induction m generalizing n with
  | zero => simp [beBytes]
  | succ p ih =>
    rw [show k + (p + 1) = (k + p) + 1 by omega]
    rw [show beBytes ((k + p) + 1) n = beBytes (k + p) (n / 256) ++ [n % 256]
        from rfl]
    rw [ih (n / 256)]
    have h1 : n / 256 / 256 ^ p = n / 256 ^ (p + 1) := by
      rw [Nat.div_div_eq_div_mul]
      ring_nf
    have h2 : n / 256 % 256 ^ p = n % 256 ^ (p + 1) / 256 := by
      rw [show (256 : Nat) ^ (p + 1) = 256 * 256 ^ p by ring]
      rw [Nat.mod_mul_right_div_self]
    have h3 : n % 256 = n % 256 ^ (p + 1) % 256 := by
      rw [Nat.mod_mod_of_dvd]
      exact dvd_pow_self 256 (by omega)
    rw [h1, h2, h3]
    rw [show beBytes (p + 1) (n % 256 ^ (p + 1)) =
      beBytes p (n % 256 ^ (p + 1) / 256) ++ [n % 256 ^ (p + 1) % 256]
        from rfl]
    simp

theorem beBytes_mul_shift (m j B : Nat) :
    beBytes (m + j) (B * 256 ^ j) = beBytes m B ++ List.replicate j 0 := by
  rw [beBytes_split m j (B * 256 ^ j)]
  have hpos : 0 < 256 ^ j := Nat.pos_pow_of_pos j (by norm_num)
  rw [Nat.mul_div_cancel _ hpos, Nat.mul_mod_left, beBytes_zero]

/-! ## stripLoop characterisation -/

theorem stripLoop_skip_zeros (z m : Nat) (rest : List Nat)
    (hl : rest.length ≥ 3) :
    stripLoop (z + m) (List.replicate z 0 ++ rest) = stripLoop m rest := by
  induction z generalizing m with
  | zero => simp
  | succ p ih =>
    rw [show p + 1 + m = (p + m) + 1 by omega]
    rw [List.replicate_succ, List.cons_append, stripLoop]
    simp only [List.headD_cons, if_pos rfl, List.tail_cons]
    have hlen : ¬ (List.replicate p 0 ++ rest).length < 3 := by
      simp only [List.length_append, List.length_replicate]
      omega
    rw [if_neg hlen]
    exact ih m

theorem stripLoop_stop (m : Nat) (rest : List Nat) (hh : rest.headD 1 ≠ 0) :
    stripLoop (m + 1) rest = (m + 1, rest) := by
  rw [stripLoop, if_neg hh]

/-- Strip `z` zeros followed by a nonzero-headed block of length `≥ 3`. -/
theorem stripLoop_main (z m : Nat) (rest : List Nat)
    (hh : rest.headD 1 ≠ 0) (hl : rest.length ≥ 3) (hm : 1 ≤ m) :
    stripLoop (z + m) (List.replicate z 0 ++ rest) = (m, rest) := by
  obtain ⟨m', rfl⟩ : ∃ m', m = m' + 1 := ⟨m - 1, by omega⟩
  rw [stripLoop_skip_zeros z (m' + 1) rest hl, stripLoop_stop m' rest hh]

/-- Strip down to a two-byte significant part: one padding zero is added. -/
theorem stripLoop_two (z a b : Nat) (ha : a ≠ 0) (hz : 1 ≤ z) :
    stripLoop (z + 2) (List.replicate z 0 ++ [a, b]) = (2, [a, b, 0]) := by
  obtain ⟨p, rfl⟩ : ∃ p, z = p + 1 := ⟨z - 1, by omega⟩
  have h1 : List.replicate (p + 1) 0 ++ [a, b] =
      List.replicate p 0 ++ [0, a, b] := by
    rw [List.replicate_succ']
    simp
  rw [h1, show p + 1 + 2 = p + 3 by omega,
    stripLoop_skip_zeros p 3 [0, a, b] (by simp)]
  have e1 : stripLoop 3 [0, a, b] = stripLoop 2 [a, b, 0] := rfl
  rw [e1]
  exact stripLoop_stop 1 [a, b, 0] (by simpa using ha)

/-- Strip down to a single significant byte: two padding zeros are added. -/
theorem stripLoop_one (z a : Nat) (ha : a ≠ 0) (hz : 2 ≤ z) :
    stripLoop (z + 1) (List.replicate z 0 ++ [a]) = (1, [a, 0, 0]) := by
  obtain ⟨p, rfl⟩ : ∃ p, z = p + 2 := ⟨z - 2, by omega⟩
  have h1 : List.replicate (p + 2) 0 ++ [a] =
      List.replicate p 0 ++ [0, 0, a] := by
    rw [show p + 2 = p + 1 + 1 by omega, List.replicate_succ',
      List.replicate_succ']
    simp
  rw [h1, show p + 2 + 1 = p + 3 by omega,
    stripLoop_skip_zeros p 3 [0, 0, a] (by simp)]
  have e1 : stripLoop 3 [0, 0, a] = stripLoop 2 [0, a, 0] := rfl
  have e2 : stripLoop 2 [0, a, 0] = stripLoop 1 [a, 0, 0] := rfl
  rw [e1, e2]
  exact stripLoop_stop 0 [a, 0, 0] (by simpa using ha)

/-- The three explicit bytes of a 3-byte big-endian encoding. -/
theorem beBytes_three (B : Nat) :
    beBytes 3 B = [B / 65536 % 256, B / 256 % 256, B % 256] := by
  have h : B / 256 / 256 = B / 65536 := by
    rw [Nat.div_div_eq_div_mul]
  show ((beBytes 0 (B / 256 / 256 / 256) ++ [B / 256 / 256 % 256]) ++
    [B / 256 % 256]) ++ [B % 256] = _
  rw [h]
  rfl

/-! ## target_to_bits on canonical shapes -/

theorem pow256_eq (k : Nat) : (256 : Nat) ^ k = 2 ^ (8 * k) := by
  rw [show (256 : Nat) = 2 ^ 8 from rfl, ← pow_mul]

theorem target_to_bits_eq (t n : Nat) (r : List Nat)
    (hs : stripLoop 32 (beBytes 32 t) = (n, r)) :
    target_to_bits t =
      if beVal (r.take 3) ≥ 0x800000 then
        ((n + 1) <<< 24) ||| (beVal (r.take 3) >>> 8)
      else (n <<< 24) ||| beVal (r.take 3) := by
  simp only [target_to_bits]
  rw [hs]

/-- `target_to_bits` on `B * 256^j` when `B` has three significant bytes. -/
theorem target_to_bits_case3 (B j : Nat) (hlo : 2 ^ 16 ≤ B)
    (hhi : B < 2 ^ 23) (hj : j ≤ 29) :
    target_to_bits (B * 256 ^ j) = ((j + 3) <<< 24) ||| B := by
  have hB3 : B < 256 ^ 3 := by rw [pow256_eq]; omega
  have hBj : B * 256 ^ j < 256 ^ (3 + j) := by
    rw [pow_add]
    exact (Nat.mul_lt_mul_right (Nat.pos_pow_of_pos j (by norm_num))).mpr hB3
  have hhead : (beBytes 3 B ++ List.replicate j 0).headD 1 ≠ 0 := by
    rw [beBytes_three]
    simp only [List.cons_append, List.headD_cons]
    omega
  have hlen : (beBytes 3 B ++ List.replicate j 0).length ≥ 3 := by
    simp [beBytes_length]
  have hs : stripLoop 32 (beBytes 32 (B * 256 ^ j)) =
      (3 + j, beBytes 3 B ++ List.replicate j 0) := by
    rw [show (32 : Nat) = (29 - j) + (3 + j) by omega]
    rw [beBytes_leading_zeros (29 - j) (3 + j) _ hBj]
    rw [beBytes_mul_shift 3 j B]
    exact stripLoop_main (29 - j) (3 + j) _ hhead hlen (by omega)
  rw [target_to_bits_eq _ _ _ hs]
  rw [List.take_left' (beBytes_length 3 B)]
  rw [beVal_beBytes 3 B hB3]
  rw [if_neg (by omega), Nat.add_comm 3 j]

/-- `target_to_bits` on `B * 256^j` when `B` has two significant bytes. -/
theorem target_to_bits_case2 (B j : Nat) (hlo : 2 ^ 8 ≤ B)
    (hhi : B < 2 ^ 16) (hj : j ≤ 30) :
    target_to_bits (B * 256 ^ j) =
      if B < 2 ^ 15 then ((j + 2) <<< 24) ||| (B * 256)
      else ((j + 3) <<< 24) ||| B := by
  have hB2 : B < 256 ^ 2 := by rw [pow256_eq]; omega
  have hBj : B * 256 ^ j < 256 ^ (2 + j) := by
    rw [pow_add]
    exact (Nat.mul_lt_mul_right (Nat.pos_pow_of_pos j (by norm_num))).mpr hB2
  have hb2 : beBytes 2 B = [B / 256, B % 256] := by
    have h1 : B / 256 % 256 = B / 256 := Nat.mod_eq_of_lt (by omega)
    show (beBytes 0 (B / 256 / 256) ++ [B / 256 % 256]) ++ [B % 256] = _
    rw [h1]
    rfl
  have hB256 : B / 256 ≠ 0 := by omega
  have hbase : beVal [B / 256, B % 256, 0] = B * 256 := by
    show ((0 * 256 + B / 256) * 256 + B % 256) * 256 + 0 = B * 256
    omega
  have hshift : (B * 256) >>> 8 = B := by
    rw [Nat.shiftRight_eq_div_pow]
    norm_num
  rcases Nat.eq_zero_or_pos j with hj0 | hjpos
  · subst hj0
    have hs : stripLoop 32 (beBytes 32 (B * 256 ^ 0)) =
        (2, [B / 256, B % 256, 0]) := by
      rw [show (32 : Nat) = (30 + 2) by omega]
      rw [show beBytes (30 + 2) (B * 256 ^ 0) =
        List.replicate 30 0 ++ beBytes 2 B by
          rw [pow_zero, mul_one]
          exact beBytes_leading_zeros 30 2 B hB2]
      rw [hb2]
      exact stripLoop_two 30 (B / 256) (B % 256) hB256 (by omega)
    rw [target_to_bits_eq _ _ _ hs]
    rw [show List.take 3 [B / 256, B % 256, 0] = [B / 256, B % 256, 0]
      from rfl]
    rw [hbase, hshift]
    by_cases h15 : B < 2 ^ 15
    · rw [if_neg (by omega), if_pos h15]
    · rw [if_pos (by omega), if_neg h15]
  · have hhead : ([B / 256, B % 256] ++ List.replicate j 0).headD 1 ≠ 0 := by
      simpa using hB256
    have hrest : ([B / 256, B % 256] ++ List.replicate j 0).length ≥ 3 := by
      simp
      omega
    have hs : stripLoop 32 (beBytes 32 (B * 256 ^ j)) =
        (2 + j, [B / 256, B % 256] ++ List.replicate j 0) := by
      rw [show (32 : Nat) = (30 - j) + (2 + j) by omega]
      rw [beBytes_leading_zeros (30 - j) (2 + j) _ hBj]
      rw [beBytes_mul_shift 2 j B, hb2]
      exact stripLoop_main (30 - j) (2 + j) _ hhead hrest (by omega)
    have htake : ([B / 256, B % 256] ++ List.replicate j 0).take 3 =
        [B / 256, B % 256, 0] := by
      obtain ⟨p, rfl⟩ : ∃ p, j = p + 1 := ⟨j - 1, by omega⟩
      rw [List.replicate_succ]
      rfl
    rw [target_to_bits_eq _ _ _ hs, htake, hbase, hshift]
    by_cases h15 : B < 2 ^ 15
    · rw [if_neg (by omega), if_pos h15, Nat.add_comm 2 j]
    · rw [if_pos (by omega), if_neg h15]
      rw [show 2 + j + 1 = j + 3 by omega]

/-- `target_to_bits` on `B * 256^j` when `B` is a single byte. -/
theorem target_to_bits_case1 (B j : Nat) (hlo : 1 ≤ B) (hhi : B < 2 ^ 8)
    (hj : j ≤ 31) :
    target_to_bits (B * 256 ^ j) =
      if B < 2 ^ 7 then ((j + 1) <<< 24) ||| (B * 65536)
      else ((j + 2) <<< 24) ||| (B * 256) := by
  have hB1 : B < 256 ^ 1 := by simpa using hhi
  have hBj : B * 256 ^ j < 256 ^ (1 + j) := by
    rw [pow_add]
    exact (Nat.mul_lt_mul_right (Nat.pos_pow_of_pos j (by norm_num))).mpr hB1
  have hb1 : beBytes 1 B = [B] := by
    show beBytes 0 (B / 256) ++ [B % 256] = [B]
    rw [Nat.mod_eq_of_lt (by omega : B < 256)]
    rfl
  have hbase : beVal [B, 0, 0] = B * 65536 := by
    show ((0 * 256 + B) * 256 + 0) * 256 + 0 = B * 65536
    ring
  have hshift : (B * 65536) >>> 8 = B * 256 := by
    rw [Nat.shiftRight_eq_div_pow]
    omega
  have hfinish : ∀ n : Nat, n = j + 1 →
      (if beVal (List.take 3 [B, 0, 0]) ≥ 0x800000 then
        ((n + 1) <<< 24) ||| (beVal (List.take 3 [B, 0, 0]) >>> 8)
      else (n <<< 24) ||| beVal (List.take 3 [B, 0, 0])) =
      if B < 2 ^ 7 then ((j + 1) <<< 24) ||| (B * 65536)
      else ((j + 2) <<< 24) ||| (B * 256) := by
    rintro n rfl
    rw [show List.take 3 [B, 0, 0] = [B, 0, 0] from rfl, hbase, hshift]
    by_cases h7 : B < 2 ^ 7
    · rw [if_neg (by omega), if_pos h7]
    · rw [if_pos (by omega), if_neg h7]
  rcases j with _ | j1
  · have hs : stripLoop 32 (beBytes 32 (B * 256 ^ 0)) = (1, [B, 0, 0]) := by
      rw [show (32 : Nat) = (31 + 1) by omega]
      rw [show beBytes (31 + 1) (B * 256 ^ 0) =
        List.replicate 31 0 ++ beBytes 1 B by
          rw [pow_zero, mul_one]
          exact beBytes_leading_zeros 31 1 B hB1]
      rw [hb1]
      exact stripLoop_one 31 B (by omega) (by omega)
    rw [target_to_bits_eq _ _ _ hs]
    exact hfinish 1 rfl
  rcases j1 with _ | p
  · have hs : stripLoop 32 (beBytes 32 (B * 256 ^ 1)) = (2, [B, 0, 0]) := by
      rw [show (32 : Nat) = (30 + 2) by omega]
      rw [show beBytes (30 + 2) (B * 256 ^ 1) =
        List.replicate 30 0 ++ [B, 0] by
          have : B * 256 ^ 1 < 256 ^ 2 := by
            rw [pow256_eq, pow256_eq] at *
            omega
          rw [beBytes_leading_zeros 30 2 _ this]
          congr 1
          rw [show (2 : Nat) = 1 + 1 by omega, beBytes_mul_shift 1 1 B, hb1]
          rfl]
      exact stripLoop_two 30 B 0 (by omega) (by omega)
    rw [target_to_bits_eq _ _ _ hs]
    exact hfinish 2 rfl
  · have hhead : ([B] ++ List.replicate (p + 2) 0).headD 1 ≠ 0 := by
      simpa using (by omega : B ≠ 0)
    have hrest : ([B] ++ List.replicate (p + 2) 0).length ≥ 3 := by
      simp
    have hs : stripLoop 32 (beBytes 32 (B * 256 ^ (p + 2))) =
        (1 + (p + 2), [B] ++ List.replicate (p + 2) 0) := by
      rw [show (32 : Nat) = (31 - (p + 2)) + (1 + (p + 2)) by omega]
      rw [beBytes_leading_zeros (31 - (p + 2)) (1 + (p + 2)) _ hBj]
      rw [beBytes_mul_shift 1 (p + 2) B, hb1]
      exact stripLoop_main (31 - (p + 2)) (1 + (p + 2)) _ hhead hrest
        (by omega)
    have htake : ([B] ++ List.replicate (p + 2) 0).take 3 = [B, 0, 0] := by
      rw [show p + 2 = p + 1 + 1 by omega, List.replicate_succ,
        List.replicate_succ]
      rfl
    rw [target_to_bits_eq _ _ _ hs, htake]
    exact hfinish (1 + (p + 2)) (by omega)

/-! ## bits_to_target on compact values -/

theorem and_2pow23_zero (v : Nat) (h : v / 2 ^ 23 % 2 = 0) :
    v &&& 0x800000 = 0 := by
  have ht : v.testBit 23 = false := by
    rw [Nat.testBit_to_div_mod]
    simp only [decide_eq_false_iff_not]
    omega
  have h2 := Nat.and_two_pow v 23
  rw [ht] at h2
  simpa using h2

theorem and_2pow23_ne (v : Nat) (h : v / 2 ^ 23 % 2 = 1) :
    v &&& 0x800000 ≠ 0 := by
  have ht : v.testBit 23 = true := by
    rw [Nat.testBit_to_div_mod]
    simp only [decide_eq_true_eq]
    omega
  have h2 := Nat.and_two_pow v 23
  rw [ht] at h2
  simp only [Bool.toNat_true, one_mul] at h2
  rw [show (0x800000 : Nat) = 2 ^ 23 by norm_num, h2]
  positivity

theorem and_mask8 (n : Nat) : n &&& 0xff = n % 2 ^ 8 := by
  have := Nat.and_pow_two_sub_one_eq_mod n 8
  norm_num at this ⊢
  exact this

theorem and_mask23 (n : Nat) : n &&& 0x7fffff = n % 2 ^ 23 := by
  have := Nat.and_pow_two_sub_one_eq_mod n 23
  norm_num at this ⊢
  exact this

theorem shiftLeft_or24 (M C : Nat) (h : C < 2 ^ 24) :
    (M <<< 24) ||| C = 2 ^ 24 * M + C := by
  rw [Nat.shiftLeft_eq, Nat.mul_comm]
  exact (Nat.mul_add_lt_is_or h M).symm

/-- `bits_to_target` on a well-formed compact value `M·2^24 + C` with a
non-negative in-range mantissa. -/
theorem bits_to_target_compact (M C : Nat) (hM : M ≤ 34) (hC : C < 2 ^ 23)
    (hside : M ≤ 32 ∨ (M = 33 ∧ C ≤ 0xffff) ∨ (M = 34 ∧ C ≤ 0xff)) :
    bits_to_target ((2 ^ 24 * M + C : Nat) : Int) =
      .ok (if M ≤ 3 then C >>> (8 * (3 - M)) else C <<< (8 * (M - 3))) := by
  have hrange : (0 : Int) ≤ ((2 ^ 24 * M + C : Nat) : Int) ∧
      ((2 ^ 24 * M + C : Nat) : Int) < (1 <<< 32 : Int) := by
    constructor
    · positivity
    · have hN : (2 ^ 24 * M + C : Nat) < 1 <<< 32 := by
        rw [Nat.shiftLeft_eq]
        omega
      exact_mod_cast hN
  rw [bits_to_target, if_neg (not_not_intro hrange)]
  have htn : ((2 ^ 24 * M + C : Nat) : Int).toNat = 2 ^ 24 * M + C :=
    Int.toNat_natCast _
  simp only [htn]
  have hN : ((2 ^ 24 * M + C) >>> 24) &&& 0xff = M := by
    rw [Nat.shiftRight_eq_div_pow, and_mask8]
    have : (2 ^ 24 * M + C) / 2 ^ 24 = M := by omega
    rw [this]
    omega
  have hB : (2 ^ 24 * M + C) &&& 0x7fffff = C := by
    rw [and_mask23]
    omega
  simp only [hN, hB]
  have hsign : (2 ^ 24 * M + C) &&& 0x800000 = 0 :=
    and_2pow23_zero _ (by omega)
  rw [if_neg (by rw [hsign]; simp)]
  rw [if_neg (by
    rintro ⟨-, hd⟩
    rcases hd with h1 | ⟨h1, h2⟩ | ⟨h1, h2⟩ <;> omega)]

/-- Every successful decoding is `0` or of the shape `B * 256^j` with a
positive sub-`2^23` mantissa and a value below `2^256`. -/
theorem bits_to_target_ok_form (b : Int) (t : Nat)
    (h : bits_to_target b = .ok t) :
    t = 0 ∨ ∃ B j, 0 < B ∧ B < 2 ^ 23 ∧ t = B * 256 ^ j ∧
      B * 256 ^ j < 2 ^ 256 := by
  rw [bits_to_target] at h
  split at h
  · cases h
  · rename_i hrange
    rw [not_not] at hrange
    dsimp only at h
    set n := b.toNat with hn
    set N := (n >>> 24) &&& 0xff with hNdef
    set C := n &&& 0x7fffff with hCdef
    by_cases hsign : (if N ≤ 3 then C >>> (8 * (3 - N))
        else C <<< (8 * (N - 3))) ≠ 0 ∧ n &&& 0x800000 ≠ 0
    · rw [if_pos hsign] at h
      cases h
    · rw [if_neg hsign] at h
      by_cases hover : (if N ≤ 3 then C >>> (8 * (3 - N))
          else C <<< (8 * (N - 3))) ≠ 0 ∧
          (N > 34 ∨ (N > 33 ∧ C > 0xff) ∨ (N > 32 ∧ C > 0xffff))
      · rw [if_pos hover] at h
        cases h
      · rw [if_neg hover] at h
        cases h
        have hC : C < 2 ^ 23 := by
          rw [hCdef, and_mask23]
          omega
        by_cases ht0 : (if N ≤ 3 then C >>> (8 * (3 - N))
            else C <<< (8 * (N - 3))) = 0
        · exact .inl ht0
        · right
          by_cases hN3 : N ≤ 3
          · rw [if_pos hN3] at ht0 ⊢
            refine ⟨C >>> (8 * (3 - N)), 0, ?_, ?_, by ring, ?_⟩
            · exact Nat.pos_of_ne_zero ht0
            · have : C >>> (8 * (3 - N)) ≤ C := by
                rw [Nat.shiftRight_eq_div_pow]
                exact Nat.div_le_self _ _
              omega
            · have : C >>> (8 * (3 - N)) ≤ C := by
                rw [Nat.shiftRight_eq_div_pow]
                exact Nat.div_le_self _ _
              calc C >>> (8 * (3 - N)) * 256 ^ 0 = C >>> (8 * (3 - N)) := by
                    ring
                _ ≤ C := this
                _ < 2 ^ 256 := by omega
          · rw [if_neg hN3] at ht0 ⊢
            have hCpos : 0 < C := by
              by_contra hc
              apply ht0
              have : C = 0 := by omega
              rw [this]
              simp
            have hNle : N ≤ 34 ∧ (N = 34 → C ≤ 0xff) ∧
                (N = 33 → C ≤ 0xffff) := by
              have hno : ¬ (N > 34 ∨ (N > 33 ∧ C > 0xff) ∨
                  (N > 32 ∧ C > 0xffff)) := by
                intro hd
                refine hover ⟨?_, hd⟩
                rw [if_neg hN3]
                exact ht0
              push_neg at hno
              obtain ⟨h1, h2, h3⟩ := hno
              refine ⟨h1, ?_, ?_⟩ <;> intro he <;> omega
            refine ⟨C, N - 3, hCpos, hC, ?_, ?_⟩
            · rw [Nat.shiftLeft_eq, pow256_eq]
            · rw [pow256_eq]
              obtain ⟨h1, h2, h3⟩ := hNle
              rcases Nat.lt_or_ge N 33 with hc | hc
              · calc C * 2 ^ (8 * (N - 3)) < 2 ^ 23 * 2 ^ (8 * (N - 3)) :=
                      (Nat.mul_lt_mul_right (Nat.pos_pow_of_pos _
                        (by norm_num))).mpr hC
                  _ ≤ 2 ^ 23 * 2 ^ 232 := by
                      apply Nat.mul_le_mul_left
                      apply Nat.pow_le_pow_right (by norm_num)
                      omega
                  _ < 2 ^ 256 := by
                      rw [← pow_add]
                      exact Nat.pow_lt_pow_right (by norm_num) (by omega)
              · rcases Nat.eq_or_lt_of_le hc with hc2 | hc2
                · have hC16 : C < 2 ^ 16 := by
                    have := h3 hc2.symm
                    omega
                  calc C * 2 ^ (8 * (N - 3)) < 2 ^ 16 * 2 ^ (8 * (N - 3)) :=
                        (Nat.mul_lt_mul_right (Nat.pos_pow_of_pos _
                          (by norm_num))).mpr hC16
                    _ = 2 ^ (16 + 8 * (N - 3)) := by rw [← pow_add]
                    _ ≤ 2 ^ 256 := by
                        apply Nat.pow_le_pow_right (by norm_num)
                        omega
                · have hN34 : N = 34 := by omega
                  have hC8 : C < 2 ^ 8 := by
                    have := h2 hN34
                    omega
                  calc C * 2 ^ (8 * (N - 3)) < 2 ^ 8 * 2 ^ (8 * (N - 3)) :=
                        (Nat.mul_lt_mul_right (Nat.pos_pow_of_pos _
                          (by norm_num))).mpr hC8
                    _ = 2 ^ (8 + 8 * (N - 3)) := by rw [← pow_add]
                    _ ≤ 2 ^ 256 := by
                        apply Nat.pow_le_pow_right (by norm_num)
                        omega

/-- Value of decoding the compact pair `(j + d, B * 256^(3-d))`. -/
theorem compact_decode_val (B j d C : Nat) (hd1 : 1 ≤ d) (hd3 : d ≤ 3)
    (hC : C = B * 256 ^ (3 - d)) :
    (if j + d ≤ 3 then C >>> (8 * (3 - (j + d)))
     else C <<< (8 * ((j + d) - 3))) = B * 256 ^ j := by
  subst hC
  by_cases h : j + d ≤ 3
  · rw [if_pos h, Nat.shiftRight_eq_div_pow, pow256_eq, pow256_eq]
    have he : 8 * (3 - d) = 8 * j + 8 * (3 - (j + d)) := by omega
    rw [he, pow_add, ← Nat.mul_assoc]
    exact Nat.mul_div_cancel _ (Nat.pos_pow_of_pos _ (by norm_num))
  · rw [if_neg h, Nat.shiftLeft_eq, pow256_eq, pow256_eq]
    rw [Nat.mul_assoc, ← pow_add]
    have he : 8 * (3 - d) + 8 * ((j + d) - 3) = 8 * j := by omega
    rw [he]

/-- Decode-of-encode on every decodable positive target. -/
theorem decode_encode (B j : Nat) (hpos : 0 < B) (hB : B < 2 ^ 23)
    (ht : B * 256 ^ j < 2 ^ 256) :
    bits_to_target ((target_to_bits (B * 256 ^ j) : Nat) : Int) =
      .ok (B * 256 ^ j) := by
  rcases Nat.lt_or_ge B (2 ^ 8) with h8 | h8
  · have hj : j ≤ 31 := by
      by_contra hj
      have h1 : 256 ^ 32 ≤ 256 ^ j :=
        Nat.pow_le_pow_right (by norm_num) (by omega)
      have h2 : 256 ^ j ≤ B * 256 ^ j := Nat.le_mul_of_pos_left _ hpos
      rw [pow256_eq] at h1
      omega
    rw [target_to_bits_case1 B j hpos h8 hj]
    by_cases h7 : B < 2 ^ 7
    · rw [if_pos h7, shiftLeft_or24 _ _ (by omega)]
      rw [bits_to_target_compact (j + 1) (B * 65536) (by omega) (by omega)
        (Or.inl (by omega))]
      rw [compact_decode_val B j 1 (B * 65536) (by norm_num) (by norm_num)
        (by norm_num)]
    · rw [if_neg h7, shiftLeft_or24 _ _ (by omega)]
      rw [bits_to_target_compact (j + 2) (B * 256) (by omega) (by omega)
        (by omega)]
      rw [compact_decode_val B j 2 (B * 256) (by norm_num) (by norm_num)
        (by norm_num)]
  · rcases Nat.lt_or_ge B (2 ^ 16) with h16 | h16
    · have hj : j ≤ 30 := by
        by_contra hj
        have h1 : 256 ^ 31 ≤ 256 ^ j :=
          Nat.pow_le_pow_right (by norm_num) (by omega)
        have h2 : 2 ^ 8 * 256 ^ j ≤ B * 256 ^ j :=
          Nat.mul_le_mul_right _ h8
        have h3 : (2 : Nat) ^ 8 * 256 ^ 31 ≤ 2 ^ 8 * 256 ^ j :=
          Nat.mul_le_mul_left _ h1
        rw [pow256_eq, ← pow_add] at h3
        omega
      rw [target_to_bits_case2 B j h8 h16 hj]
      by_cases h15 : B < 2 ^ 15
      · rw [if_pos h15, shiftLeft_or24 _ _ (by omega)]
        rw [bits_to_target_compact (j + 2) (B * 256) (by omega) (by omega)
          (Or.inl (by omega))]
        rw [compact_decode_val B j 2 (B * 256) (by norm_num) (by norm_num)
          (by norm_num)]
      · rw [if_neg h15, shiftLeft_or24 _ _ (by omega)]
        rw [bits_to_target_compact (j + 3) B (by omega) (by omega)
          (by omega)]
        rw [compact_decode_val B j 3 B (by norm_num) (by norm_num)
          (by norm_num)]
    · have hj : j ≤ 29 := by
        by_contra hj
        have h1 : 256 ^ 30 ≤ 256 ^ j :=
          Nat.pow_le_pow_right (by norm_num) (by omega)
        have h2 : 2 ^ 16 * 256 ^ j ≤ B * 256 ^ j :=
          Nat.mul_le_mul_right _ h16
        have h3 : (2 : Nat) ^ 16 * 256 ^ 30 ≤ 2 ^ 16 * 256 ^ j :=
          Nat.mul_le_mul_left _ h1
        rw [pow256_eq, ← pow_add] at h3
        omega
      rw [target_to_bits_case3 B j h16 hB hj]
      rw [shiftLeft_or24 _ _ (by omega)]
      rw [bits_to_target_compact (j + 3) B (by omega) (by omega)
        (Or.inl (by omega))]
      rw [compact_decode_val B j 3 B (by norm_num) (by norm_num)
        (by norm_num)]

/-- `target_to_bits` on an arbitrary target with at least three significant
bytes: the mantissa is the top three bytes, re-normalised when its high bit
is set. -/
theorem target_to_bits_general (t L hi : Nat)
    (hL : L = Nat.log 256 t + 1) (hhi : hi = t / 256 ^ (L - 3))
    (h16 : 2 ^ 16 ≤ t) (h256 : t < 2 ^ 256) :
    target_to_bits t =
      if hi < 2 ^ 23 then (L <<< 24) ||| hi
      else ((L + 1) <<< 24) ||| (hi >>> 8) := by
  have ht0 : t ≠ 0 := by omega
  have hlow : 256 ^ (L - 1) ≤ t := by
    rw [hL]
    simpa using Nat.pow_log_le_self 256 ht0
  have hupp : t < 256 ^ L := by
    rw [hL]
    exact Nat.lt_pow_succ_log_self (by norm_num) t
  have hL3 : 3 ≤ L := by
    by_contra hc
    have : t < 256 ^ 2 := by
      calc t < 256 ^ L := hupp
        _ ≤ 256 ^ 2 := Nat.pow_le_pow_right (by norm_num) (by omega)
    rw [pow256_eq] at this
    omega
  have hL32 : L ≤ 32 := by
    by_contra hc
    have : 256 ^ 32 ≤ 256 ^ (L - 1) :=
      Nat.pow_le_pow_right (by norm_num) (by omega)
    rw [pow256_eq] at this
    omega
  have hhilow : 256 ^ 2 ≤ hi := by
    rw [hhi]
    rw [Nat.le_div_iff_mul_le (Nat.pos_pow_of_pos _ (by norm_num))]
    calc 256 ^ 2 * 256 ^ (L - 3) = 256 ^ (L - 1) := by
          rw [← pow_add]
          congr 1
          omega
      _ ≤ t := hlow
  have hhiupp : hi < 256 ^ 3 := by
    rw [hhi]
    rw [Nat.div_lt_iff_lt_mul (Nat.pos_pow_of_pos _ (by norm_num))]
    calc t < 256 ^ L := hupp
      _ = 256 ^ 3 * 256 ^ (L - 3) := by
          rw [← pow_add]
          congr 1
          omega
  have hsplit : beBytes L t =
      beBytes 3 hi ++ beBytes (L - 3) (t % 256 ^ (L - 3)) := by
    rw [show L = 3 + (L - 3) by omega, beBytes_split 3 (L - 3) t,
      hhi]
    rw [show 3 + (L - 3) - 3 = L - 3 by omega]
  have hhead : (beBytes 3 hi ++ beBytes (L - 3) (t % 256 ^ (L - 3))).headD 1
      ≠ 0 := by
    rw [beBytes_three]
    simp only [List.cons_append, List.headD_cons]
    have h1 : hi / 65536 ≥ 1 := by
      have h2 : (256 : Nat) ^ 2 = 65536 := by norm_num
      omega
    have h2 : hi / 65536 < 256 := by
      have h3 : (256 : Nat) ^ 3 = 16777216 := by norm_num
      omega
    omega
  have hlen : (beBytes 3 hi ++ beBytes (L - 3) (t % 256 ^ (L - 3))).length
      ≥ 3 := by
    simp [beBytes_length]
  have hs : stripLoop 32 (beBytes 32 t) =
      (L, beBytes 3 hi ++ beBytes (L - 3) (t % 256 ^ (L - 3))) := by
    rw [show (32 : Nat) = (32 - L) + L by omega]
    rw [beBytes_leading_zeros (32 - L) L t hupp, hsplit]
    exact stripLoop_main (32 - L) L _ hhead hlen (by omega)
  rw [target_to_bits_eq _ _ _ hs]
  rw [List.take_left' (beBytes_length 3 hi)]
  rw [beVal_beBytes 3 hi hhiupp]
  by_cases hren : hi < 2 ^ 23
  · rw [if_neg (by omega), if_pos hren]
  · rw [if_pos (by omega), if_neg hren]

/-- Every compact value in the image of `target_to_bits` decodes, and its
decoded target re-encodes to the same compact value. -/
theorem encode_image_roundtrip (t : Nat) (h256 : t < 2 ^ 256) :
    ∃ t2, bits_to_target ((target_to_bits t : Nat) : Int) = .ok t2 ∧
      target_to_bits t2 = target_to_bits t := by
  rcases Nat.eq_zero_or_pos t with rfl | hpos
  · exact ⟨0, by decide, rfl⟩
  rcases Nat.lt_or_ge t (2 ^ 23) with hsmall | hbig
  · refine ⟨t, ?_, rfl⟩
    have := decode_encode t 0 hpos hsmall (by simpa using h256)
    simpa using this
  · have h16 : 2 ^ 16 ≤ t := by omega
    obtain ⟨L, hL⟩ : ∃ L, L = Nat.log 256 t + 1 := ⟨_, rfl⟩
    obtain ⟨hi, hhi⟩ : ∃ hi, hi = t / 256 ^ (L - 3) := ⟨_, rfl⟩
    have hgen := target_to_bits_general t L hi hL hhi h16 h256
    have ht0 : t ≠ 0 := by omega
    have hlow : 256 ^ (L - 1) ≤ t := by
      rw [hL]
      simpa using Nat.pow_log_le_self 256 ht0
    have hupp : t < 256 ^ L := by
      rw [hL]
      exact Nat.lt_pow_succ_log_self (by norm_num) t
    have hL3 : 3 ≤ L := by
      by_contra hc
      have : t < 256 ^ 2 := by
        calc t < 256 ^ L := hupp
          _ ≤ 256 ^ 2 := Nat.pow_le_pow_right (by norm_num) (by omega)
      rw [pow256_eq] at this
      omega
    have hL32 : L ≤ 32 := by
      by_contra hc
      have : 256 ^ 32 ≤ 256 ^ (L - 1) :=
        Nat.pow_le_pow_right (by norm_num) (by omega)
      rw [pow256_eq] at this
      omega
    have hhilow : 256 ^ 2 ≤ hi := by
      rw [hhi]
      rw [Nat.le_div_iff_mul_le (Nat.pos_pow_of_pos _ (by norm_num))]
      calc 256 ^ 2 * 256 ^ (L - 3) = 256 ^ (2 + (L - 3)) := by
            rw [← pow_add]
        _ = 256 ^ (L - 1) := by rw [show 2 + (L - 3) = L - 1 by omega]
        _ ≤ t := hlow
    have hhiupp : hi < 256 ^ 3 := by
      rw [hhi]
      rw [Nat.div_lt_iff_lt_mul (Nat.pos_pow_of_pos _ (by norm_num))]
      calc t < 256 ^ L := hupp
        _ = 256 ^ (3 + (L - 3)) := by
            rw [show 3 + (L - 3) = L by omega]
        _ = 256 ^ 3 * 256 ^ (L - 3) := by rw [← pow_add]
    have hhi16 : 2 ^ 16 ≤ hi := by
      have : (256 : Nat) ^ 2 = 2 ^ 16 := by norm_num
      omega
    have hhi24 : hi < 2 ^ 24 := by
      have : (256 : Nat) ^ 3 = 2 ^ 24 := by norm_num
      omega
    by_cases hren : hi < 2 ^ 23
    · refine ⟨hi * 256 ^ (L - 3), ?_, ?_⟩
      · rw [hgen, if_pos hren, shiftLeft_or24 _ _ (by omega)]
        rw [show (2 ^ 24 * L + hi : Nat) = 2 ^ 24 * ((L - 3) + 3) + hi by
          omega]
        rw [bits_to_target_compact ((L - 3) + 3) hi (by omega) (by omega)
          (Or.inl (by omega))]
        rw [compact_decode_val hi (L - 3) 3 hi (by norm_num) (by norm_num)
          (by norm_num)]
      · rw [target_to_bits_case3 hi (L - 3) hhi16 hren (by omega), hgen,
          if_pos hren]
        rw [show L - 3 + 3 = L by omega]
    · have hq16 : hi >>> 8 < 2 ^ 16 := by
        rw [Nat.shiftRight_eq_div_pow]
        omega
      have hq15 : 2 ^ 15 ≤ hi >>> 8 := by
        rw [Nat.shiftRight_eq_div_pow]
        omega
      refine ⟨(hi >>> 8) * 256 ^ (L - 2), ?_, ?_⟩
      · rw [hgen, if_neg hren, shiftLeft_or24 _ _ (by omega)]
        rw [show (2 ^ 24 * (L + 1) + hi >>> 8 : Nat) =
          2 ^ 24 * ((L - 2) + 3) + hi >>> 8 by omega]
        rw [bits_to_target_compact ((L - 2) + 3) (hi >>> 8) (by omega)
          (by omega) (by omega)]
        rw [compact_decode_val (hi >>> 8) (L - 2) 3 (hi >>> 8)
          (by norm_num) (by norm_num) (by norm_num)]
      · rw [target_to_bits_case2 (hi >>> 8) (L - 2) (by omega) hq16
          (by omega), if_neg (by omega), hgen, if_neg hren]
        rw [show L - 2 + 3 = L + 1 by omega]

/-! ## C4: compact round-trip laws -/

/-- C4 counterexample: `b = 0x01000012` is well-formed in the claim's sense
(non-negative, in range, decoding succeeds) but decodes to target `0`, and
`target_to_bits 0 = 0 ≠ b`, refuting
`target_to_bits (bits_to_target b) == b` as stated. -/
theorem c4_counterexample :
    bits_to_target (0x01000012 : Int) = .ok 0 ∧
    target_to_bits 0 ≠ 0x01000012 := by
  refine ⟨by decide, by decide⟩

/-- C4 amended: the first law holds as claimed — every target that is the
decoding of some well-formed compact encoding re-encodes and decodes back to
itself; the second law holds for the compact values that are *canonically
encoded*, i.e. lie in the image of `target_to_bits` (rather than for every
well-formed value, as the claim had it): for `b = target_to_bits t`,
`bits_to_target b` succeeds and its value re-encodes to exactly `b`. -/
theorem c4_amended :
    (∀ (b : Int) (t : Nat), bits_to_target b = .ok t →
      bits_to_target ((target_to_bits t : Nat) : Int) = .ok t) ∧
    (∀ t : Nat, t < 2 ^ 256 →
      ∃ t2, bits_to_target ((target_to_bits t : Nat) : Int) = .ok t2 ∧
        target_to_bits t2 = target_to_bits t) := by
  constructor
  · intro b t h
    rcases bits_to_target_ok_form b t h with rfl | ⟨B, j, hpos, hB, rfl, hlt⟩
    · decide
    · exact decode_encode B j hpos hB hlt
  · intro t h256
    exact encode_image_roundtrip t h256

/-- Witness for C4 amended: the genesis-era compact value `0x1d00ffff`
decodes to `0xffff * 256^26` and both directions round-trip there. -/
theorem c4_witness :
    bits_to_target ((target_to_bits (0xffff * 256 ^ 26) : Nat) : Int) =
      .ok (0xffff * 256 ^ 26) ∧
    ∃ t2, bits_to_target ((target_to_bits 7777777 : Nat) : Int) = .ok t2 ∧
      target_to_bits t2 = target_to_bits 7777777 :=
  ⟨c4_amended.1 (0x1d00ffff : Int) (0xffff * 256 ^ 26) (by decide),
   c4_amended.2 7777777 (by norm_num)⟩

/-! ## C5: the rejection conditions of bits_to_target -/

/-- Modelled from the spec: the rejection conditions C5 attributes to
`bits_to_target` — (1) outside the unsigned 32-bit range, (2) sign bit
`0x800000` set with non-zero decoded target, (3) over-range, namely
`base > 0xff` with `N > 34`, `base > 0xffff` with `N > 33`, and `N > 34`
(each with non-zero target). -/
def specBitsRejects (b : Int) : Prop :=
  ¬ (0 ≤ b ∧ b < 2 ^ 32) ∨
  ((if b.toNat / 2 ^ 24 ≤ 3 then
      b.toNat % 2 ^ 23 / 256 ^ (3 - b.toNat / 2 ^ 24)
    else b.toNat % 2 ^ 23 * 256 ^ (b.toNat / 2 ^ 24 - 3)) ≠ 0 ∧
    (b.toNat / 2 ^ 23 % 2 = 1 ∨
      (b.toNat % 2 ^ 23 > 0xff ∧ b.toNat / 2 ^ 24 > 34) ∨
      (b.toNat % 2 ^ 23 > 0xffff ∧ b.toNat / 2 ^ 24 > 33) ∨
      b.toNat / 2 ^ 24 > 34))

/-- C5 counterexample: `b = 0x22000100` (exponent `N = 34`, mantissa
`base = 0x100`) is accepted by every condition the claim lists — so the
claim says the decoded target is returned — yet the code raises
`InvalidHeader("target has overflown")` (its actual threshold is `N > 33`
with `base > 0xff`, not the claim's `N > 34`). -/
theorem c5_counterexample :
    ¬ specBitsRejects (0x22000100 : Int) ∧
    bits_to_target (0x22000100 : Int) =
      .error (.invalidHeader "target has overflown") := by
  constructor
  · rw [specBitsRejects]
    decide
  · decide

/-- The decoded 256-bit target of an in-range compact value `n`. -/
def decodedTarget (n : Nat) : Nat :=
  if n / 2 ^ 24 ≤ 3 then n % 2 ^ 23 / 256 ^ (3 - n / 2 ^ 24)
  else n % 2 ^ 23 * 256 ^ (n / 2 ^ 24 - 3)

/-- The code's actual over-range condition, with `N` the exponent byte and
`base` the 23-bit mantissa of `n`. -/
def overRange (n : Nat) : Prop :=
  n / 2 ^ 24 > 34 ∨ (n / 2 ^ 24 > 33 ∧ n % 2 ^ 23 > 0xff) ∨
    (n / 2 ^ 24 > 32 ∧ n % 2 ^ 23 > 0xffff)

/-- C5 amended: `bits_to_target` raises exactly on (1) inputs outside the
unsigned 32-bit range, (2) negative encodings (sign bit `0x800000` set with
non-zero decoded target), and (3) over-range values with the *corrected*
thresholds `N > 34`, `base > 0xff` with `N > 33`, and `base > 0xffff` with
`N > 32`; on every other input it returns the decoded target. -/
theorem c5_amended (b : Int) :
    (¬ (0 ≤ b ∧ b < 2 ^ 32) →
      bits_to_target b = .error (.invalidHeader "bits should be uint32")) ∧
    (∀ n : Nat, b = (n : Int) → n < 2 ^ 32 →
      (decodedTarget n ≠ 0 ∧ n / 2 ^ 23 % 2 = 1 →
        bits_to_target b = .error (.invalidHeader "target cannot be negative")) ∧
      (decodedTarget n ≠ 0 ∧ n / 2 ^ 23 % 2 = 0 ∧ overRange n →
        bits_to_target b = .error (.invalidHeader "target has overflown")) ∧
      ((decodedTarget n = 0 ∨ (n / 2 ^ 23 % 2 = 0 ∧ ¬ overRange n)) →
        bits_to_target b = .ok (decodedTarget n))) := by
  have hbound : ((1 <<< 32 : Nat) : Int) = 2 ^ 32 := by
    norm_num [Nat.shiftLeft_eq]
  constructor
  · intro hr
    rw [bits_to_target, if_pos]
    intro hc
    exact hr ⟨hc.1, by rw [← hbound]; exact hc.2⟩
  · rintro n rfl h32
    have hrange : ¬¬ (0 ≤ (n : Int) ∧ (n : Int) < ((1 <<< 32 : Nat) : Int)) := by
      rw [not_not, hbound]
      exact ⟨by positivity, by exact_mod_cast h32⟩
    have htn : ((n : Int)).toNat = n := Int.toNat_natCast n
    have hN : (n >>> 24) &&& 0xff = n / 2 ^ 24 := by
      rw [Nat.shiftRight_eq_div_pow, and_mask8]
      omega
    have hB : n &&& 0x7fffff = n % 2 ^ 23 := and_mask23 n
    have hdt : (if n / 2 ^ 24 ≤ 3 then
        (n % 2 ^ 23) >>> (8 * (3 - n / 2 ^ 24))
        else (n % 2 ^ 23) <<< (8 * (n / 2 ^ 24 - 3))) = decodedTarget n := by
      rw [decodedTarget]
      by_cases h3 : n / 2 ^ 24 ≤ 3
      · rw [if_pos h3, if_pos h3, Nat.shiftRight_eq_div_pow, pow256_eq]
      · rw [if_neg h3, if_neg h3, Nat.shiftLeft_eq, pow256_eq]
    refine ⟨?_, ?_, ?_⟩
    · rintro ⟨ht0, hsg⟩
      rw [bits_to_target, if_neg hrange]
      simp only [htn, hN, hB, hdt]
      rw [if_pos ⟨ht0, and_2pow23_ne n hsg⟩]
    · rintro ⟨ht0, hsg, hov⟩
      rw [bits_to_target, if_neg hrange]
      simp only [htn, hN, hB, hdt]
      rw [if_neg (by
        rintro ⟨-, hbad⟩
        exact absurd hbad (by rw [and_2pow23_zero n hsg]; simp))]
      rw [if_pos ⟨ht0, by rw [overRange] at hov; tauto⟩]
    · intro hok
      rw [bits_to_target, if_neg hrange]
      simp only [htn, hN, hB, hdt]
      rcases hok with ht0 | ⟨hsg, hov⟩
      · rw [if_neg (by rintro ⟨hbad, -⟩; exact hbad ht0),
          if_neg (by rintro ⟨hbad, -⟩; exact hbad ht0)]
      · rw [if_neg (by
          rintro ⟨-, hbad⟩
          exact absurd hbad (by rw [and_2pow23_zero n hsg]; simp))]
        rw [if_neg (by
          rintro ⟨-, hbad⟩
          rw [overRange] at hov
          tauto)]

/-- Witness for C5 amended at the compact value `0x1d00ffff` (accepted) and
at a negative input (rejected as out of range). -/
theorem c5_witness :
    bits_to_target (0x1d00ffff : Int) = .ok (decodedTarget 0x1d00ffff) ∧
    bits_to_target (-1 : Int) =
      .error (.invalidHeader "bits should be uint32") :=
  ⟨((c5_amended (0x1d00ffff : Int)).2 0x1d00ffff rfl (by norm_num)).2.2
      (.inr ⟨by decide, by rw [overRange]; decide⟩),
   (c5_amended (-1 : Int)).1 (by decide)⟩

/-! ## C8 amended: codec round-trip in canonical form -/

theorem slice_prefix (v w : List Nat) (b : Nat) (hb : v.length = b) :
    slice (v ++ w) 0 b = v := by
  rw [slice, List.drop_zero, Nat.sub_zero, List.take_left' hb]

theorem slice_of_append (u v w : List Nat) (a b : Nat)
    (ha : u.length = a) (hb : b = a + v.length) :
    slice (u ++ (v ++ w)) a b = v := by
  rw [slice, List.drop_left' ha]
  rw [show b - a = v.length by omega]
  exact List.take_left' rfl

theorem slice_suffix (u v : List Nat) (a b : Nat) (ha : u.length = a)
    (hb : v.length = b - a) : slice (u ++ v) a b = v := by
  rw [slice, List.drop_left' ha, ← hb, List.take_length]

theorem beVal_rev_int_to_hex (k i : Nat) (h : i < 256 ^ k) :
    beVal (hash_encode (int_to_hex i k)) = i := by
  rw [hash_encode, int_to_hex_reverse, beVal_beBytes k i h]

theorem pad_tail_zero (nv : Nat) (mx : List Nat) (hnv : nv < 2 ^ 64)
    (_hmx : mx.length = 32)
    (h : int_to_hex nv 8 ++ rev_hex mx = List.replicate 40 0) :
    nv = 0 ∧ mx = List.replicate 32 0 := by
  have hsplit : List.replicate 40 (0 : Nat) =
      List.replicate 8 (0 : Nat) ++ List.replicate 32 0 := by
    rw [← List.replicate_add]
  rw [hsplit] at h
  have hlen : (int_to_hex nv 8).length =
      (List.replicate 8 (0 : Nat)).length := by
    simp [int_to_hex_length]
  obtain ⟨h1, h2⟩ := List.append_inj h hlen
  constructor
  · exact int_to_hex_eq_zero 8 nv (by rw [pow256_eq]; omega) h1
  · rw [rev_hex] at h2
    rw [← List.reverse_reverse mx, h2, List.reverse_replicate]

/-- C8 amended: the codec round-trips on every header in its own canonical
dict form.  Legacy and AuxPOW headers (no `'nheight'`) carry a u32 `nonce`
and none of the extended keys, and serialise to exactly 80 bytes; extended
headers carry `'nheight'`, a u64 value in the `'nonce'` key (`'nonce64'`
absent — the key deserialisation itself produces), a 32-byte `mix_hash`,
and must not be byte-identical to a padded AuxPOW record (version bit 8 at
height ≥ activation with zero nonce and all-zero mix hash); they serialise
to exactly 120 bytes.  In both cases
`deserialize_header (serialize_header h) h.block_height` returns `h`. -/
theorem c8_amended :
    (∀ (net : Net) (h : Header) (nv : Nat),
      h.nheight = none → h.nonce = some nv → h.nonce64 = none →
      h.mix_hash = none → nv < 2 ^ 32 →
      h.prev_block_hash.length = 32 → h.merkle_root.length = 32 →
      h.version < 2 ^ 32 → h.timestamp < 2 ^ 32 → h.bits < 2 ^ 32 →
      deserialize_header net (serialize_header h) h.block_height = .ok h ∧
      (serialize_header h).length = 80) ∧
    (∀ (net : Net) (h : Header) (nh nv : Nat) (mx : List Nat),
      h.nheight = some nh → h.nonce = some nv → h.nonce64 = none →
      h.mix_hash = some mx → nh < 2 ^ 32 → nv < 2 ^ 64 → mx.length = 32 →
      h.prev_block_hash.length = 32 → h.merkle_root.length = 32 →
      h.version < 2 ^ 32 → h.timestamp < 2 ^ 32 → h.bits < 2 ^ 32 →
      ¬ (h.version &&& (1 <<< 8) ≠ 0 ∧
          h.block_height ≥ net.AuxPowActivationHeight ∧
          nv = 0 ∧ mx = List.replicate 32 0) →
      deserialize_header net (serialize_header h) h.block_height = .ok h ∧
      (serialize_header h).length = 120) := by
  constructor
  · intro net h nv hnh hn hn64 hmx hnv hp hm hv hts hb
    obtain ⟨v, p, m, ts, bits, nonce, nheight, nonce64, mix, bh⟩ := h
    have hnh' : nheight = none := hnh
    have hn' : nonce = some nv := hn
    have hn64' : nonce64 = none := hn64
    have hmx' : mix = none := hmx
    have hp' : p.length = 32 := hp
    have hm' : m.length = 32 := hm
    have hv' : v < 2 ^ 32 := hv
    have hts' : ts < 2 ^ 32 := hts
    have hb' : bits < 2 ^ 32 := hb
    subst hnh'
    subst hn'
    subst hn64'
    subst hmx'
    show deserialize_header net
        (serialize_header ⟨v, p, m, ts, bits, some nv, none, none, none, bh⟩)
        bh =
      .ok ⟨v, p, m, ts, bits, some nv, none, none, none, bh⟩ ∧
      (serialize_header
        ⟨v, p, m, ts, bits, some nv, none, none, none, bh⟩).length = 80
    obtain ⟨s, hsde⟩ : ∃ t, t = serialize_header
        ⟨v, p, m, ts, bits, some nv, none, none, none, bh⟩ := ⟨_, rfl⟩
    rw [← hsde]
    have hs : s = int_to_hex v 4 ++ (rev_hex p ++ (rev_hex m ++
        (int_to_hex ts 4 ++ (int_to_hex bits 4 ++ int_to_hex nv 4)))) := by
      rw [hsde]
      simp [serialize_header, List.append_assoc]
    have hlen : s.length = 80 := by
      rw [hs]
      simp [int_to_hex_length, rev_hex, hp', hm']
    refine ⟨?_, hlen⟩
    have hne : ¬ (s = []) := by
      intro h0
      rw [h0] at hlen
      simp at hlen
    have hlor : ¬¬(s.length = LEGACY_HEADER_SIZE ∨
        s.length = HEADER_SIZE) := not_not_intro (Or.inl hlen)
    have hne120 : ¬ (s.length = HEADER_SIZE) := by
      rw [hlen]
      decide
    have f0 : slice s 0 4 = int_to_hex v 4 := by
      rw [hs]
      exact slice_prefix _ _ 4 (int_to_hex_length v 4)
    have f1 : slice s 4 36 = rev_hex p := by
      rw [hs]
      exact slice_of_append _ _ _ 4 36 (int_to_hex_length v 4)
        (by simp [rev_hex, hp'])
    have f2 : slice s 36 68 = rev_hex m := by
      rw [hs, show int_to_hex v 4 ++ (rev_hex p ++ (rev_hex m ++
        (int_to_hex ts 4 ++ (int_to_hex bits 4 ++ int_to_hex nv 4)))) =
        (int_to_hex v 4 ++ rev_hex p) ++ (rev_hex m ++
        (int_to_hex ts 4 ++ (int_to_hex bits 4 ++ int_to_hex nv 4))) by
          simp [List.append_assoc]]
      exact slice_of_append _ _ _ 36 68
        (by simp [int_to_hex_length, rev_hex, hp'])
        (by simp [rev_hex, hm'])
    have f3 : slice s 68 72 = int_to_hex ts 4 := by
      rw [hs, show int_to_hex v 4 ++ (rev_hex p ++ (rev_hex m ++
        (int_to_hex ts 4 ++ (int_to_hex bits 4 ++ int_to_hex nv 4)))) =
        (int_to_hex v 4 ++ (rev_hex p ++ rev_hex m)) ++ (int_to_hex ts 4 ++
        (int_to_hex bits 4 ++ int_to_hex nv 4)) by simp [List.append_assoc]]
      exact slice_of_append _ _ _ 68 72
        (by simp [int_to_hex_length, rev_hex, hp', hm'])
        (by simp [int_to_hex_length])
    have f4 : slice s 72 76 = int_to_hex bits 4 := by
      rw [hs, show int_to_hex v 4 ++ (rev_hex p ++ (rev_hex m ++
        (int_to_hex ts 4 ++ (int_to_hex bits 4 ++ int_to_hex nv 4)))) =
        (int_to_hex v 4 ++ (rev_hex p ++ (rev_hex m ++ int_to_hex ts 4))) ++
        (int_to_hex bits 4 ++ int_to_hex nv 4) by simp [List.append_assoc]]
      exact slice_of_append _ _ _ 72 76
        (by simp [int_to_hex_length, rev_hex, hp', hm'])
        (by simp [int_to_hex_length])
    have f5 : slice s 76 80 = int_to_hex nv 4 := by
      rw [hs, show int_to_hex v 4 ++ (rev_hex p ++ (rev_hex m ++
        (int_to_hex ts 4 ++ (int_to_hex bits 4 ++ int_to_hex nv 4)))) =
        (int_to_hex v 4 ++ (rev_hex p ++ (rev_hex m ++ (int_to_hex ts 4 ++
          int_to_hex bits 4)))) ++ int_to_hex nv 4 by
          simp [List.append_assoc]]
      exact slice_suffix _ _ 76 80
        (by simp [int_to_hex_length, rev_hex, hp', hm'])
        (by simp [int_to_hex_length])
    simp only [deserialize_header]
    rw [if_neg hne, if_neg hlor, if_neg hne120]
    rw [f0, f1, f2, f3, f4, f5]
    rw [leVal_int_to_hex 4 v (by rw [pow256_eq]; omega)]
    rw [beVal_rev_int_to_hex 4 ts (by rw [pow256_eq]; omega)]
    rw [beVal_rev_int_to_hex 4 bits (by rw [pow256_eq]; omega)]
    rw [beVal_rev_int_to_hex 4 nv (by rw [pow256_eq]; omega)]
    rw [show hash_encode (rev_hex p) = p by
      rw [hash_encode, rev_hex, List.reverse_reverse]]
    rw [show hash_encode (rev_hex m) = m by
      rw [hash_encode, rev_hex, List.reverse_reverse]]
  · intro net h nh nv mx hnh hn hn64 hmx hnhv hnv hmxl hp hm hv hts hb hpad
    obtain ⟨v, p, m, ts, bits, nonce, nheight, nonce64, mix, bh⟩ := h
    have hnh' : nheight = some nh := hnh
    have hn' : nonce = some nv := hn
    have hn64' : nonce64 = none := hn64
    have hmx' : mix = some mx := hmx
    have hp' : p.length = 32 := hp
    have hm' : m.length = 32 := hm
    have hv' : v < 2 ^ 32 := hv
    have hts' : ts < 2 ^ 32 := hts
    have hb' : bits < 2 ^ 32 := hb
    have hpad' : ¬ (v &&& (1 <<< 8) ≠ 0 ∧
        bh ≥ net.AuxPowActivationHeight ∧
        nv = 0 ∧ mx = List.replicate 32 0) := hpad
    subst hnh'
    subst hn'
    subst hn64'
    subst hmx'
    show deserialize_header net
        (serialize_header
          ⟨v, p, m, ts, bits, some nv, some nh, none, some mx, bh⟩) bh =
      .ok ⟨v, p, m, ts, bits, some nv, some nh, none, some mx, bh⟩ ∧
      (serialize_header
        ⟨v, p, m, ts, bits, some nv, some nh, none, some mx, bh⟩).length =
        120
    obtain ⟨s, hsde⟩ : ∃ t, t = serialize_header
        ⟨v, p, m, ts, bits, some nv, some nh, none, some mx, bh⟩ := ⟨_, rfl⟩
    rw [← hsde]
    have hs : s = int_to_hex v 4 ++ (rev_hex p ++ (rev_hex m ++
        (int_to_hex ts 4 ++ (int_to_hex bits 4 ++ (int_to_hex nh 4 ++
          (int_to_hex nv 8 ++ rev_hex mx)))))) := by
      rw [hsde]
      simp [serialize_header, List.append_assoc]
    have hlen : s.length = 120 := by
      rw [hs]
      simp [int_to_hex_length, rev_hex, hp', hm', hmxl]
    refine ⟨?_, hlen⟩
    have hne : ¬ (s = []) := by
      intro h0
      rw [h0] at hlen
      simp at hlen
    have hlor : ¬¬(s.length = LEGACY_HEADER_SIZE ∨
        s.length = HEADER_SIZE) := not_not_intro (Or.inr hlen)
    have h120 : s.length = HEADER_SIZE := hlen
    have f0 : slice s 0 4 = int_to_hex v 4 := by
      rw [hs]
      exact slice_prefix _ _ 4 (int_to_hex_length v 4)
    have f1 : slice s 4 36 = rev_hex p := by
      rw [hs]
      exact slice_of_append _ _ _ 4 36 (int_to_hex_length v 4)
        (by simp [rev_hex, hp'])
    have f2 : slice s 36 68 = rev_hex m := by
      rw [hs, show int_to_hex v 4 ++ (rev_hex p ++ (rev_hex m ++
        (int_to_hex ts 4 ++ (int_to_hex bits 4 ++ (int_to_hex nh 4 ++
          (int_to_hex nv 8 ++ rev_hex mx)))))) =
        (int_to_hex v 4 ++ rev_hex p) ++ (rev_hex m ++ (int_to_hex ts 4 ++
        (int_to_hex bits 4 ++ (int_to_hex nh 4 ++ (int_to_hex nv 8 ++
          rev_hex mx))))) by simp [List.append_assoc]]
      exact slice_of_append _ _ _ 36 68
        (by simp [int_to_hex_length, rev_hex, hp'])
        (by simp [rev_hex, hm'])
    have f3 : slice s 68 72 = int_to_hex ts 4 := by
      rw [hs, show int_to_hex v 4 ++ (rev_hex p ++ (rev_hex m ++
        (int_to_hex ts 4 ++ (int_to_hex bits 4 ++ (int_to_hex nh 4 ++
          (int_to_hex nv 8 ++ rev_hex mx)))))) =
        (int_to_hex v 4 ++ (rev_hex p ++ rev_hex m)) ++ (int_to_hex ts 4 ++
        (int_to_hex bits 4 ++ (int_to_hex nh 4 ++ (int_to_hex nv 8 ++
          rev_hex mx)))) by simp [List.append_assoc]]
      exact slice_of_append _ _ _ 68 72
        (by simp [int_to_hex_length, rev_hex, hp', hm'])
        (by simp [int_to_hex_length])
    have f4 : slice s 72 76 = int_to_hex bits 4 := by
      rw [hs, show int_to_hex v 4 ++ (rev_hex p ++ (rev_hex m ++
        (int_to_hex ts 4 ++ (int_to_hex bits 4 ++ (int_to_hex nh 4 ++
          (int_to_hex nv 8 ++ rev_hex mx)))))) =
        (int_to_hex v 4 ++ (rev_hex p ++ (rev_hex m ++ int_to_hex ts 4))) ++
        (int_to_hex bits 4 ++ (int_to_hex nh 4 ++ (int_to_hex nv 8 ++
          rev_hex mx))) by simp [List.append_assoc]]
      exact slice_of_append _ _ _ 72 76
        (by simp [int_to_hex_length, rev_hex, hp', hm'])
        (by simp [int_to_hex_length])
    have f5 : slice s 76 80 = int_to_hex nh 4 := by
      rw [hs, show int_to_hex v 4 ++ (rev_hex p ++ (rev_hex m ++
        (int_to_hex ts 4 ++ (int_to_hex bits 4 ++ (int_to_hex nh 4 ++
          (int_to_hex nv 8 ++ rev_hex mx)))))) =
        (int_to_hex v 4 ++ (rev_hex p ++ (rev_hex m ++ (int_to_hex ts 4 ++
          int_to_hex bits 4)))) ++ (int_to_hex nh 4 ++ (int_to_hex nv 8 ++
          rev_hex mx)) by simp [List.append_assoc]]
      exact slice_of_append _ _ _ 76 80
        (by simp [int_to_hex_length, rev_hex, hp', hm'])
        (by simp [int_to_hex_length])
    have f6 : slice s 80 88 = int_to_hex nv 8 := by
      rw [hs, show int_to_hex v 4 ++ (rev_hex p ++ (rev_hex m ++
        (int_to_hex ts 4 ++ (int_to_hex bits 4 ++ (int_to_hex nh 4 ++
          (int_to_hex nv 8 ++ rev_hex mx)))))) =
        (int_to_hex v 4 ++ (rev_hex p ++ (rev_hex m ++ (int_to_hex ts 4 ++
          (int_to_hex bits 4 ++ int_to_hex nh 4))))) ++ (int_to_hex nv 8 ++
          rev_hex mx) by simp [List.append_assoc]]
      exact slice_of_append _ _ _ 80 88
        (by simp [int_to_hex_length, rev_hex, hp', hm'])
        (by simp [int_to_hex_length])
    have f7 : slice s 88 120 = rev_hex mx := by
      rw [hs, show int_to_hex v 4 ++ (rev_hex p ++ (rev_hex m ++
        (int_to_hex ts 4 ++ (int_to_hex bits 4 ++ (int_to_hex nh 4 ++
          (int_to_hex nv 8 ++ rev_hex mx)))))) =
        (int_to_hex v 4 ++ (rev_hex p ++ (rev_hex m ++ (int_to_hex ts 4 ++
          (int_to_hex bits 4 ++ (int_to_hex nh 4 ++ int_to_hex nv 8)))))) ++
          rev_hex mx by simp [List.append_assoc]]
      exact slice_suffix _ _ 88 120
        (by simp [int_to_hex_length, rev_hex, hp', hm'])
        (by simp [rev_hex, hmxl])
    have ftail : slice s 80 120 = int_to_hex nv 8 ++ rev_hex mx := by
      rw [hs, show int_to_hex v 4 ++ (rev_hex p ++ (rev_hex m ++
        (int_to_hex ts 4 ++ (int_to_hex bits 4 ++ (int_to_hex nh 4 ++
          (int_to_hex nv 8 ++ rev_hex mx)))))) =
        (int_to_hex v 4 ++ (rev_hex p ++ (rev_hex m ++ (int_to_hex ts 4 ++
          (int_to_hex bits 4 ++ int_to_hex nh 4))))) ++ (int_to_hex nv 8 ++
          rev_hex mx) by simp [List.append_assoc]]
      exact slice_suffix _ _ 80 120
        (by simp [int_to_hex_length, rev_hex, hp', hm'])
        (by simp [int_to_hex_length, rev_hex, hmxl])
    have hnotpad : ¬ (bh ≥ net.AuxPowActivationHeight ∧
        leVal (slice s 0 4) &&& (1 <<< 8) ≠ 0 ∧
        slice s LEGACY_HEADER_SIZE HEADER_SIZE =
          List.replicate (HEADER_SIZE - LEGACY_HEADER_SIZE) 0) := by
      rintro ⟨hh, hbit, htail⟩
      rw [show (LEGACY_HEADER_SIZE : Nat) = 80 from rfl,
        show (HEADER_SIZE : Nat) = 120 from rfl] at htail
      rw [ftail] at htail
      obtain ⟨hz, hmz⟩ := pad_tail_zero nv mx hnv hmxl (by simpa using htail)
      rw [f0, leVal_int_to_hex 4 v (by rw [pow256_eq]; omega)] at hbit
      exact hpad' ⟨hbit, hh, hz, hmz⟩
    simp only [deserialize_header]
    rw [if_neg hne, if_neg hlor, if_pos h120, if_pos hnotpad]
    rw [f0, f1, f2, f3, f4, f5, f6, f7]
    rw [leVal_int_to_hex 4 v (by rw [pow256_eq]; omega)]
    rw [beVal_rev_int_to_hex 4 ts (by rw [pow256_eq]; omega)]
    rw [beVal_rev_int_to_hex 4 bits (by rw [pow256_eq]; omega)]
    rw [beVal_rev_int_to_hex 4 nh (by rw [pow256_eq]; omega)]
    rw [beVal_rev_int_to_hex 8 nv (by rw [pow256_eq]; omega)]
    rw [show hash_encode (rev_hex p) = p by
      rw [hash_encode, rev_hex, List.reverse_reverse]]
    rw [show hash_encode (rev_hex m) = m by
      rw [hash_encode, rev_hex, List.reverse_reverse]]
    rw [show hash_encode (rev_hex mx) = mx by
      rw [hash_encode, rev_hex, List.reverse_reverse]]

set_option maxRecDepth 8000 in
/-- Witness for C8 amended at a concrete legacy and a concrete extended
header. -/
theorem c8_witness :
    deserialize_header mainnetShape (serialize_header legacyHdr)
        legacyHdr.block_height = .ok legacyHdr ∧
    deserialize_header mainnetShape
        (serialize_header { extHdr64 with nonce := some 7, nonce64 := none })
        extHdr64.block_height =
      .ok { extHdr64 with nonce := some 7, nonce64 := none } :=
  ⟨(c8_amended.1 mainnetShape legacyHdr 0 rfl rfl rfl rfl (by norm_num)
      (by simp [legacyHdr]) (by simp [legacyHdr]) (by norm_num [legacyHdr])
      (by norm_num [legacyHdr]) (by norm_num [legacyHdr])).1,
   (c8_amended.2 mainnetShape
      { extHdr64 with nonce := some 7, nonce64 := none } 1 7
      (List.replicate 32 4) rfl rfl rfl rfl (by norm_num) (by norm_num)
      (by simp) (by simp [extHdr64]) (by simp [extHdr64])
      (by norm_num [extHdr64]) (by norm_num [extHdr64])
      (by norm_num [extHdr64]) (by decide)).1⟩

end Mewc
